import Mathlib

/-!
# Batch-rule helpers of functorch (`functorch/csrc/BatchRulesHelper.cpp`)

A shallow embedding of the helper routines of `BatchRulesHelper.cpp` and proofs of
properties of the shapes they compute.

Modelling conventions.

* `int64_t` values are integers (`Int`).  The product of two sizes in
  `reshape_dim_into` is reduced modulo `2^64` into the `int64_t` range (`mulInt64`); the
  other additions and subtractions act on ranks and indices and stay far inside the
  range.  C++ `/` and `%` truncate towards zero: they are `Int.tdiv` and `Int.tmod`, and
  a zero divisor is undefined behaviour.
* A function that can throw or run into undefined behaviour returns `Except Err _`.
* A tensor is its shape.  The per-axis sizes of a tensor are natural numbers (a size is
  never negative), while a shape vector built by the helpers (`VmapDimVector`) is a list
  of integers, as in the source.
* `maybe_wrap_dim`, `movedim`, `reshape`, `view`, `size`, `dim`, `numel` belong to the
  tensor library (ATen) and are not part of `BatchRulesHelper.cpp`; each is modelled as
  documented at its definition.
-/

namespace Functorch

/-! ## Failures -/

/-- The ways in which a call can fail. -/
inductive Err where
  /-- `TORCH_CHECK_INDEX` failure of the dimension-wrap utility: invalid dimension index. -/
  | indexError
  /-- `TORCH_INTERNAL_ASSERT` failure: invariant violation. -/
  | internalAssert
  /-- The tensor library rejected the target shape of a `reshape` or `view`. -/
  | invalidShape
  /-- `TORCH_CHECK(false, ...)`: a user-facing failure carrying its message. -/
  | checkFailed (msg : String)
  /-- Undefined behaviour: out-of-bounds vector access or integer division by zero. -/
  | undefinedBehaviour
deriving DecidableEq, Repr

deriving instance DecidableEq for Except

/-! ## Shape vectors (`VmapDimVector`, `IntArrayRef`) -/

/-- Product of the entries of a shape vector. -/
def shapeProd (v : List Int) : Int := v.prod

/-- The `int64_t` value that an integer is reduced to: its representative modulo `2^64`
in `[-2^63, 2^63)`. -/
def wrapInt64 (a : Int) : Int := (a + 2 ^ 63) % 2 ^ 64 - 2 ^ 63

/-- The product `a * b` of two `int64_t` values, as a machine multiplication: the exact
product when it is representable, its reduction modulo `2^64` on overflow. -/
def mulInt64 (a b : Int) : Int := wrapInt64 (a * b)

/-- Read `v[i]`; an index outside `[0, size)` is undefined behaviour. -/
def vecGet (v : List Int) (i : Int) : Except Err Int :=
  if 0 ≤ i ∧ i < v.length then .ok (v.getD i.toNat 0) else .error .undefinedBehaviour

/-- Write `v[i] = a`; an index outside `[0, size)` is undefined behaviour. -/
def vecSet (v : List Int) (i : Int) (a : Int) : Except Err (List Int) :=
  if 0 ≤ i ∧ i < v.length then .ok (v.set i.toNat a) else .error .undefinedBehaviour

/-- The call `v.erase(v.begin() + i)`; the iterator must point at an element. -/
def vecErase (v : List Int) (i : Int) : Except Err (List Int) :=
  if 0 ≤ i ∧ i < v.length then .ok (v.eraseIdx i.toNat) else .error .undefinedBehaviour

/-- The call `v.insert(v.begin() + i, a)`; the iterator must lie in `[begin, end]`. -/
def vecInsert (v : List Int) (i : Int) (a : Int) : Except Err (List Int) :=
  if 0 ≤ i ∧ i ≤ v.length then .ok (v.take i.toNat ++ a :: v.drop i.toNat)
  else .error .undefinedBehaviour

/-! ## The tensor library -/

/-- Modelled from the spec: the tensor type of the external tensor library is not under
`src/`.  A tensor is an opaque array with an ordered sequence of per-axis sizes; only
that sequence is kept. -/
structure Tensor where
  /-- The per-axis sizes, outermost first. -/
  sizes : List Nat
deriving DecidableEq, Repr

/-- The sizes as the source reads them, `tensor.sizes()`, a sequence of `int64_t`. -/
def Tensor.sizesInt (t : Tensor) : List Int := t.sizes.map Int.ofNat

/-- The rank `tensor.dim()`. -/
def Tensor.dim (t : Tensor) : Int := (t.sizes.length : Int)

/-- The element count `tensor.numel()`: the product of the sizes. -/
def Tensor.numel (t : Tensor) : Int := shapeProd t.sizesInt

/-- Modelled from the spec: `maybe_wrap_dim` of `ATen/WrapDimUtils.h` is not under `src/`.
Spec: "given a raw (possibly negative) index and a valid rank, returns a normalized
non-negative index or raises a validation failure on out-of-range input"; the index is
normalized "into range `[0, rank)` using standard negative-index wrap-around". -/
def maybe_wrap_dim (dim dim_post_expr : Int) : Except Err Int :=
  if -dim_post_expr ≤ dim ∧ dim < dim_post_expr then
    .ok (if dim < 0 then dim + dim_post_expr else dim)
  else .error .indexError

/-- Modelled from the spec: `Tensor::size(dim)` of the tensor library, the size of one
axis, the axis index being normalized by the dimension-wrap utility. -/
def Tensor.size (t : Tensor) (dim : Int) : Except Err Int := do
  let d ← maybe_wrap_dim dim t.dim
  vecGet t.sizesInt d

/-- Modelled from the spec: `Tensor::movedim(src, dst)` of the tensor library.  Both
indices are normalized against the rank; the axis `src` is relocated to position `dst`,
"preserving relative order of all other axes". -/
def Tensor.movedim (t : Tensor) (src dst : Int) : Except Err Tensor := do
  let s ← maybe_wrap_dim src t.dim
  let d ← maybe_wrap_dim dst t.dim
  let rest := t.sizes.eraseIdx s.toNat
  .ok ⟨rest.take d.toNat ++ t.sizes.getD s.toNat 0 :: rest.drop d.toNat⟩

/-- Modelled from the spec: `at::reshape(t, shape)` of the tensor library, which raises
"on shape mismatch".  The target is accepted when every entry is a size (non-negative)
and the element count is unchanged.  Inference of an entry written `-1` is not
modelled: a target with a negative entry is rejected. -/
def reshape (t : Tensor) (shape : List Int) : Except Err Tensor :=
  if (∀ a ∈ shape, 0 ≤ a) ∧ shapeProd shape = t.numel then
    .ok ⟨shape.map Int.toNat⟩
  else .error .invalidShape

/-- Modelled from the spec: `Tensor::view(shape)` of the tensor library.  The memory
layout is not modelled, so a view is accepted exactly when the reshape is. -/
def Tensor.view (t : Tensor) (shape : List Int) : Except Err Tensor :=
  reshape t shape

/-! ## `BatchRulesHelper.cpp` -/

/-- Source lines 12-20. -/
def moveBatchDimToFront (tensor : Tensor) (maybe_batch_dim : Option Int) :
    Except Err Tensor :=
  match maybe_batch_dim with
  | none => .ok tensor
  | some b => if b = 0 then .ok tensor else tensor.movedim b 0

/-- Source lines 22-28. -/
def rankWithoutBatchDim (tensor : Tensor) (maybe_batch_dim : Option Int) : Int :=
  let result := tensor.dim
  if maybe_batch_dim.isSome then result - 1 else result

/-- Source lines 30-35.  The quotient is undefined when the batch axis has size 0. -/
def numelWithoutBatchDim (tensor : Tensor) (maybe_batch_dim : Option Int) :
    Except Err Int :=
  match maybe_batch_dim with
  | none => .ok tensor.numel
  | some b => do
    let sz ← tensor.size b
    if sz = 0 then .error .undefinedBehaviour else .ok (tensor.numel.tdiv sz)

/-- Source lines 37-42. -/
def valIfNonempty (maybe_empty : Option Int) (new_val : Int) : Option Int :=
  if maybe_empty.isSome then some new_val else none

/-- Source lines 44-53. -/
def getPhysicalDim (tensor : Tensor) (has_batch_dim : Bool) (logical_dim : Int) :
    Except Err Int := do
  let bdim : Option Int := if has_batch_dim then some 0 else none
  let rank := rankWithoutBatchDim tensor bdim
  let wrapped_dim ← maybe_wrap_dim logical_dim rank
  if has_batch_dim then .ok (wrapped_dim + 1) else .ok wrapped_dim

/-- The loop of source lines 64-66, run `k` times: each round inserts a `1` at
position 1 of the vector. -/
def padLoop : Nat → List Int → Except Err (List Int)
  | 0, new_sizes => .ok new_sizes
  | k + 1, new_sizes => do
    let new_sizes ← vecInsert new_sizes 1 1
    padLoop k new_sizes

/-- Source lines 55-68. -/
def maybePadToLogicalRank (tensor : Tensor) (has_bdim : Option Int) (logical_rank : Int) :
    Except Err Tensor :=
  if has_bdim.isNone then .ok tensor
  else
    let tensor_logical_rank := rankWithoutBatchDim tensor has_bdim
    if tensor_logical_rank ≥ logical_rank then .ok tensor
    else do
      let new_sizes ← padLoop (logical_rank - tensor_logical_rank).toNat tensor.sizesInt
      tensor.view new_sizes

/-- Source lines 71-76 of `reshape_dim_into`: the wrapped `src`, the wrapped `dst` and
the vector `new_shape` that is handed to `at::reshape`.  Line 76 multiplies two
`int64_t` values. -/
def reshape_dim_into_new_shape (src dst : Int) (x : Tensor) :
    Except Err (Int × Int × List Int) := do
  let x_dim := x.dim
  let src ← maybe_wrap_dim src x_dim
  let dst ← maybe_wrap_dim dst (x_dim - 1)
  let new_shape := x.sizesInt
  let new_shape ← vecErase new_shape src
  let old ← vecGet new_shape dst
  let removed ← vecGet x.sizesInt src
  let new_shape ← vecSet new_shape dst (mulInt64 old removed)
  .ok (src, dst, new_shape)

/-- Source lines 70-78. -/
def reshape_dim_into (src dst : Int) (x : Tensor) : Except Err Tensor := do
  let (src, dst, new_shape) ← reshape_dim_into_new_shape src dst x
  let moved ← x.movedim src dst
  reshape moved new_shape

/-- Source lines 81-86 of `reshape_dim_outof`: the vector `shape` that is handed to
`at::reshape`.  `shape[src] % size1` is undefined for `size1 = 0`. -/
def reshape_dim_outof_new_shape (src size1 : Int) (x : Tensor) :
    Except Err (List Int) := do
  let src ← maybe_wrap_dim src x.dim
  let shape := x.sizesInt
  let cur ← vecGet shape src
  if size1 = 0 then .error .undefinedBehaviour
  else if cur.tmod size1 ≠ 0 then .error .internalAssert
  else do
    let size2 := cur.tdiv size1
    let shape ← vecSet shape src size1
    vecInsert shape (src + 1) size2

/-- Source lines 80-88. -/
def reshape_dim_outof (src size1 : Int) (x : Tensor) : Except Err Tensor := do
  let shape ← reshape_dim_outof_new_shape src size1 x
  reshape x shape

/-- The message assembled by source lines 92-98. -/
def vmapIncompatibleInplaceMessage (schema_name : String) : String :=
  "vmap: " ++ schema_name ++ "(self, *extra_args) is not possible because " ++
  "there exists a Tensor `other` in extra_args that has more elements " ++
  "than `self`. This happened due to `other` being vmapped over but " ++
  "`self` not being vmapped over in a vmap. " ++
  "Please try to use out-of-place operators instead of " ++ schema_name ++ ". " ++
  "If said operator is being called inside the PyTorch framework, " ++
  "please file a bug report instead."

/-- Source lines 90-99. -/
def vmapIncompatibleInplaceError (schema_name : String) : Except Err Unit :=
  .error (.checkFailed (vmapIncompatibleInplaceMessage schema_name))


/-! ## Auxiliary facts -/

theorem maybe_wrap_dim_ok_iff (dim r s : Int) :
    maybe_wrap_dim dim r = .ok s ↔
      -r ≤ dim ∧ dim < r ∧ s = if dim < 0 then dim + r else dim := by
  unfold maybe_wrap_dim
  by_cases h : -r ≤ dim ∧ dim < r
  · simp only [h, and_self, if_true, Except.ok.injEq, true_and]
    exact eq_comm
  · rw [if_neg h]
    constructor
    · intro h'; cases h'
    · rintro ⟨h1, h2, -⟩; exact absurd ⟨h1, h2⟩ h

theorem maybe_wrap_dim_range {dim r s : Int} (h : maybe_wrap_dim dim r = .ok s) :
    0 ≤ s ∧ s < r := by
  obtain ⟨h1, h2, rfl⟩ := (maybe_wrap_dim_ok_iff dim r s).1 h
  split_ifs <;> constructor <;> omega

theorem maybe_wrap_dim_of_range {s r : Int} (h0 : 0 ≤ s) (h1 : s < r) :
    maybe_wrap_dim s r = .ok s := by
  rw [maybe_wrap_dim_ok_iff]
  refine ⟨by omega, h1, ?_⟩
  rw [if_neg (by omega)]

theorem sizesInt_length (t : Tensor) : t.sizesInt.length = t.sizes.length := by
  simp [Tensor.sizesInt]

theorem sizesInt_nonneg (t : Tensor) : ∀ a ∈ t.sizesInt, 0 ≤ a := by
  intro a ha
  simp only [Tensor.sizesInt, List.mem_map] at ha
  obtain ⟨n, -, rfl⟩ := ha
  exact Int.ofNat_nonneg n

theorem map_ofNat_toNat (shape : List Int) (h : ∀ a ∈ shape, 0 ≤ a) :
    (shape.map Int.toNat).map Int.ofNat = shape := by
  induction shape with
  | nil => rfl
  | cons a l ih =>
    simp only [List.map_cons, List.cons.injEq]
    refine ⟨?_, ih fun b hb => h b (List.mem_cons_of_mem _ hb)⟩
    exact Int.toNat_of_nonneg (h a (List.mem_cons_self _ _))

theorem reshape_ok (t : Tensor) (shape : List Int) (h : ∀ a ∈ shape, 0 ≤ a)
    (hp : shapeProd shape = t.numel) :
    ∃ y, reshape t shape = .ok y ∧ y.sizesInt = shape := by
  refine ⟨⟨shape.map Int.toNat⟩, ?_, map_ofNat_toNat shape h⟩
  unfold reshape
  rw [if_pos ⟨h, hp⟩]

theorem reshape_eq_ok {t y : Tensor} {shape : List Int} (h : reshape t shape = .ok y) :
    y.sizesInt = shape ∧ shapeProd shape = t.numel := by
  unfold reshape at h
  split_ifs at h with hc
  cases h
  exact ⟨map_ofNat_toNat shape hc.1, hc.2⟩

theorem reshape_ne_internalAssert (t : Tensor) (shape : List Int) :
    reshape t shape ≠ .error .internalAssert := by
  unfold reshape
  split_ifs <;> simp

/-- Splitting a list around position `i`. -/
theorem list_split_at (l : List Int) (i : Nat) (h : i < l.length) :
    l = l.take i ++ l.getD i 0 :: l.drop (i + 1) := by
  rw [List.getD_eq_getElem l 0 h, List.getElem_cons_drop, List.take_append_drop]

theorem prod_split_at (l : List Int) (i : Nat) (h : i < l.length) :
    l.prod = l.getD i 0 * (l.eraseIdx i).prod := by
  conv_lhs => rw [list_split_at l i h]
  rw [List.eraseIdx_eq_take_drop_succ]
  simp only [List.prod_append, List.prod_cons]
  ring

theorem prod_set_mul (l : List Int) (j : Nat) (h : j < l.length) (c : Int) :
    (l.set j (l.getD j 0 * c)).prod = l.prod * c := by
  rw [List.set_eq_take_cons_drop _ h]
  conv_rhs => rw [list_split_at l j h]
  simp only [List.prod_append, List.prod_cons]
  ring


theorem movedim_ok (x : Tensor) (s d : Int) (hs0 : 0 ≤ s) (hs : s < x.dim)
    (hd0 : 0 ≤ d) (hd : d < x.dim) :
    ∃ m, x.movedim s d = .ok m ∧
      m.sizes = (x.sizes.eraseIdx s.toNat).take d.toNat ++
        x.sizes.getD s.toNat 0 :: (x.sizes.eraseIdx s.toNat).drop d.toNat ∧
      m.numel = x.numel := by
  refine ⟨_, ?_, rfl, ?_⟩
  · unfold Tensor.movedim
    rw [maybe_wrap_dim_of_range hs0 hs, maybe_wrap_dim_of_range hd0 hd]
    rfl
  · have hlen : s.toNat < x.sizesInt.length := by
      rw [sizesInt_length]; unfold Tensor.dim at hs; omega
    unfold Tensor.numel shapeProd
    rw [prod_split_at x.sizesInt s.toNat hlen]
    simp only [Tensor.sizesInt, List.map_append, List.map_cons, List.prod_append,
      List.prod_cons, List.map_take, List.map_drop]
    have e1 : List.map Int.ofNat (x.sizes.eraseIdx s.toNat)
        = (List.map Int.ofNat x.sizes).eraseIdx s.toNat := by
      simp only [List.eraseIdx_eq_take_drop_succ, List.map_append, List.map_take,
        List.map_drop]
    have e2 : Int.ofNat (x.sizes.getD s.toNat 0)
        = (List.map Int.ofNat x.sizes).getD s.toNat 0 := by
      exact (List.getD_map x.sizes 0 Int.ofNat).symm
    rw [e1, e2]
    rw [← List.prod_take_mul_prod_drop ((List.map Int.ofNat x.sizes).eraseIdx s.toNat) d.toNat]
    ring

theorem wrapInt64_eq (a : Int) (h0 : 0 ≤ a) (h1 : a < 2 ^ 63) : wrapInt64 a = a := by
  unfold wrapInt64
  norm_num at h1 ⊢
  omega

theorem mulInt64_eq (a b : Int) (h0 : 0 ≤ a * b) (h1 : a * b < 2 ^ 63) :
    mulInt64 a b = a * b :=
  wrapInt64_eq _ h0 h1

theorem reshape_ne_undefinedBehaviour (t : Tensor) (shape : List Int) :
    reshape t shape ≠ .error .undefinedBehaviour := by
  unfold reshape
  split_ifs <;> simp

theorem into_new_shape_ok (x : Tensor) (src dst s d : Int)
    (hs : maybe_wrap_dim src x.dim = .ok s) (hd : maybe_wrap_dim dst (x.dim - 1) = .ok d) :
    reshape_dim_into_new_shape src dst x = .ok (s, d,
      (x.sizesInt.eraseIdx s.toNat).set d.toNat
        (mulInt64 ((x.sizesInt.eraseIdx s.toNat).getD d.toNat 0)
          (x.sizesInt.getD s.toNat 0))) := by
  obtain ⟨hs0, hs1⟩ := maybe_wrap_dim_range hs
  obtain ⟨hd0, hd1⟩ := maybe_wrap_dim_range hd
  have hlen := sizesInt_length x
  have hdim : x.dim = (x.sizes.length : Int) := rfl
  have hs2 : s < (x.sizesInt.length : Int) := by omega
  have hel : (x.sizesInt.eraseIdx s.toNat).length = x.sizes.length - 1 := by
    rw [List.length_eraseIdx, if_pos (by omega), hlen]
  have hd2 : d < ((x.sizesInt.eraseIdx s.toNat).length : Int) := by omega
  simp only [reshape_dim_into_new_shape, hs, hd, vecErase, vecGet, vecSet, hs0, hs2,
    hd0, hd2, and_self, if_true, Except.bind, bind]


theorem modify_eq_set_getD (f : Int → Int) (l : List Int) (j : Nat) (h : j < l.length) :
    List.modify f j l = l.set j (f (l.getD j 0)) := by
  rw [List.modify_eq_set_get?, List.getD_eq_getElem l 0 h]
  simp [List.get?_eq_getElem?, List.getElem?_eq_getElem h]

theorem getD_eraseIdx (l : List Int) (i j : Nat) :
    (l.eraseIdx i).getD j 0 = if j < i then l.getD j 0 else l.getD (j + 1) 0 := by
  simp only [List.getD_eq_getElem?_getD, List.getElem?_eraseIdx]
  split_ifs <;> rfl

theorem getD_set (l : List Int) (i j : Nat) (a : Int) (h : j < l.length) :
    (l.set i a).getD j 0 = if i = j then a else l.getD j 0 := by
  simp only [List.getD_eq_getElem?_getD, List.getElem?_set]
  split_ifs with h1 h2
  · rfl
  · omega
  · rfl

/-- The vector that `reshape_dim_into` hands to `at::reshape`, for wrapped indices
`s` and `d` given as natural numbers. -/
theorem into_shape_facts (l : List Int) (hl : ∀ a ∈ l, 0 ≤ a) (s d : Nat)
    (hs : s < l.length) (hd : d < l.length - 1) :
    (∀ a ∈ (l.eraseIdx s).set d ((l.eraseIdx s).getD d 0 * l.getD s 0), 0 ≤ a) ∧
    ((l.eraseIdx s).set d ((l.eraseIdx s).getD d 0 * l.getD s 0)).prod = l.prod := by
  have hel : (l.eraseIdx s).length = l.length - 1 := by
    rw [List.length_eraseIdx, if_pos hs]
  have he : ∀ a ∈ l.eraseIdx s, 0 ≤ a := fun a ha => hl a (List.mem_of_mem_eraseIdx ha)
  constructor
  · intro a ha
    rcases List.mem_or_eq_of_mem_set ha with h | rfl
    · exact he a h
    · apply mul_nonneg
      · rw [List.getD_eq_getElem _ 0 (by omega)]
        exact he _ (List.getElem_mem _)
      · rw [List.getD_eq_getElem _ 0 hs]
        exact hl _ (List.getElem_mem _)
  · rw [prod_set_mul _ d (by omega), prod_split_at l s hs]
    ring

theorem take_set_insert (l : List Int) (i : Nat) (a b : Int) (h : i < l.length) :
    (l.set i a).take (i + 1) ++ b :: (l.set i a).drop (i + 1) =
      l.take i ++ a :: b :: l.drop (i + 1) := by
  induction l generalizing i with
  | nil => simp at h
  | cons c l ih =>
    cases i with
    | zero => simp
    | succ i =>
      simp only [List.length_cons, Nat.add_lt_add_iff_right] at h
      simpa using ih i h

theorem outof_new_shape_ok (x : Tensor) (src size1 s : Int)
    (hs : maybe_wrap_dim src x.dim = .ok s) (h1 : size1 ≠ 0)
    (hdiv : (x.sizesInt.getD s.toNat 0).tmod size1 = 0) :
    reshape_dim_outof_new_shape src size1 x = .ok
      (x.sizesInt.take s.toNat ++
        size1 :: (x.sizesInt.getD s.toNat 0).tdiv size1 :: x.sizesInt.drop (s.toNat + 1)) := by
  obtain ⟨hs0, hs1⟩ := maybe_wrap_dim_range hs
  have hlen := sizesInt_length x
  have hdim : x.dim = (x.sizes.length : Int) := rfl
  have hs2 : s < (x.sizesInt.length : Int) := by omega
  have hs3 : s + 1 ≤ (x.sizesInt.length : Int) := by omega
  have hs4 : 0 ≤ s + 1 := by omega
  have hsn : s.toNat < x.sizesInt.length := by omega
  have hsucc : (s + 1).toNat = s.toNat + 1 := by omega
  simp only [reshape_dim_outof_new_shape, hs, vecGet, vecSet, vecInsert, hs0, hs2, hs3,
    hs4, h1, hdiv, List.length_set, and_self, if_true, if_false, Except.bind, bind,
    ne_eq, not_true_eq_false, hsucc]
  rw [take_set_insert _ _ _ _ hsn]

theorem outof_new_shape_assert (x : Tensor) (src size1 s : Int)
    (hs : maybe_wrap_dim src x.dim = .ok s) (h1 : size1 ≠ 0)
    (hdiv : (x.sizesInt.getD s.toNat 0).tmod size1 ≠ 0) :
    reshape_dim_outof_new_shape src size1 x = .error .internalAssert := by
  obtain ⟨hs0, hs1⟩ := maybe_wrap_dim_range hs
  have hlen := sizesInt_length x
  have hdim : x.dim = (x.sizes.length : Int) := rfl
  have hs2 : s < (x.sizesInt.length : Int) := by omega
  simp only [reshape_dim_outof_new_shape, hs, vecGet, hs0, hs2, h1, hdiv, and_self,
    if_true, if_false, Except.bind, bind, ne_eq, not_false_eq_true]

theorem outof_shape_prod (l : List Int) (i : Nat) (h : i < l.length) (size1 : Int)
    (hdiv : (l.getD i 0).tmod size1 = 0) :
    (l.take i ++ size1 :: (l.getD i 0).tdiv size1 :: l.drop (i + 1)).prod = l.prod := by
  conv_rhs => rw [list_split_at l i h]
  have key : size1 * (l.getD i 0).tdiv size1 = l.getD i 0 := by
    have := Int.tmod_add_tdiv (l.getD i 0) size1
    rw [hdiv, zero_add] at this
    exact this
  simp only [List.prod_append, List.prod_cons]
  conv_rhs => rw [← key]
  ring

theorem outof_shape_nonneg (l : List Int) (hl : ∀ a ∈ l, 0 ≤ a) (i : Nat)
    (h : i < l.length) (size1 : Int) (hpos : 0 < size1) :
    ∀ a ∈ l.take i ++ size1 :: (l.getD i 0).tdiv size1 :: l.drop (i + 1), 0 ≤ a := by
  intro a ha
  simp only [List.mem_append, List.mem_cons] at ha
  rcases ha with h1 | rfl | rfl | h4
  · exact hl a (List.mem_of_mem_take h1)
  · exact hpos.le
  · apply Int.tdiv_nonneg _ hpos.le
    rw [List.getD_eq_getElem _ 0 h]
    exact hl _ (List.getElem_mem _)
  · exact hl a (List.mem_of_mem_drop h4)


theorem into_new_shape_inv {x : Tensor} {src dst s d : Int} {ns : List Int}
    (h : reshape_dim_into_new_shape src dst x = .ok (s, d, ns)) :
    maybe_wrap_dim src x.dim = .ok s ∧ maybe_wrap_dim dst (x.dim - 1) = .ok d ∧
      ns = (x.sizesInt.eraseIdx s.toNat).set d.toNat
        (mulInt64 ((x.sizesInt.eraseIdx s.toNat).getD d.toNat 0)
          (x.sizesInt.getD s.toNat 0)) := by
  cases h1 : maybe_wrap_dim src x.dim with
  | error e => simp [reshape_dim_into_new_shape, h1, bind, Except.bind] at h
  | ok s1 =>
    cases h2 : maybe_wrap_dim dst (x.dim - 1) with
    | error e => simp [reshape_dim_into_new_shape, h1, h2, bind, Except.bind] at h
    | ok d1 =>
      rw [into_new_shape_ok x src dst s1 d1 h1 h2] at h
      simp only [Except.ok.injEq, Prod.mk.injEq] at h
      obtain ⟨rfl, rfl, rfl⟩ := h
      exact ⟨rfl, rfl, rfl⟩

theorem outof_new_shape_inv {x : Tensor} {src size1 : Int} {ns : List Int}
    (h : reshape_dim_outof_new_shape src size1 x = .ok ns) :
    ∃ s, maybe_wrap_dim src x.dim = .ok s ∧ size1 ≠ 0 ∧
      (x.sizesInt.getD s.toNat 0).tmod size1 = 0 ∧
      ns = x.sizesInt.take s.toNat ++
        size1 :: (x.sizesInt.getD s.toNat 0).tdiv size1 :: x.sizesInt.drop (s.toNat + 1) := by
  cases h1 : maybe_wrap_dim src x.dim with
  | error e => simp [reshape_dim_outof_new_shape, h1, bind, Except.bind] at h
  | ok s =>
    obtain ⟨hs0, hs1⟩ := maybe_wrap_dim_range h1
    have hlen := sizesInt_length x
    have hdim : x.dim = (x.sizes.length : Int) := rfl
    have hs2 : s < (x.sizesInt.length : Int) := by omega
    by_cases hz : size1 = 0
    · simp [reshape_dim_outof_new_shape, h1, vecGet, hs0, hs2, hz, bind, Except.bind] at h
    · by_cases hdiv : (x.sizesInt.getD s.toNat 0).tmod size1 = 0
      · rw [outof_new_shape_ok x src size1 s h1 hz hdiv] at h
        exact ⟨s, rfl, hz, hdiv, (Except.ok.inj h).symm⟩
      · rw [outof_new_shape_assert x src size1 s h1 hz hdiv] at h
        cases h

theorem tensor_eq_of_sizesInt {a b : Tensor} (h : a.sizesInt = b.sizesInt) : a = b := by
  cases a with
  | mk sa =>
    cases b with
    | mk sb =>
      have := (List.map_injective_iff.2 Int.ofNat_injective) h
      simp only at this
      rw [this]

theorem dim_eq_length (t : Tensor) : t.dim = (t.sizesInt.length : Int) := by
  rw [sizesInt_length]; rfl

theorem size_ok (x : Tensor) (src s : Int) (hs : maybe_wrap_dim src x.dim = .ok s) :
    x.size src = .ok (x.sizesInt.getD s.toNat 0) := by
  obtain ⟨hs0, hs1⟩ := maybe_wrap_dim_range hs
  have hs2 : s < (x.sizesInt.length : Int) := by rw [← dim_eq_length]; exact hs1
  simp only [Tensor.size, hs, vecGet, hs0, hs2, and_self, if_true, bind, Except.bind]

/-- The product of line 76 is never negative. -/
theorem into_prod_nonneg (x : Tensor) (s d : Nat) :
    0 ≤ (x.sizesInt.eraseIdx s).getD d 0 * x.sizesInt.getD s 0 := by
  have hn : ∀ (l : List Int), (∀ a ∈ l, 0 ≤ a) → ∀ i : Nat, 0 ≤ l.getD i 0 := by
    intro l hl i
    rw [List.getD_eq_getElem?_getD]
    cases h : l[i]? with
    | none => simp
    | some a => exact hl a (List.getElem?_mem h)
  exact mul_nonneg
    (hn _ (fun a ha => sizesInt_nonneg x a (List.mem_of_mem_eraseIdx ha)) d)
    (hn _ (sizesInt_nonneg x) s)

/-- The result of `reshape_dim_into` when both indices are accepted and the product of
line 76 does not overflow. -/
theorem reshape_dim_into_ok (x : Tensor) (src dst s d : Int)
    (hs : maybe_wrap_dim src x.dim = .ok s)
    (hd : maybe_wrap_dim dst (x.dim - 1) = .ok d)
    (hfit : (x.sizesInt.eraseIdx s.toNat).getD d.toNat 0 * x.sizesInt.getD s.toNat 0
      < 2 ^ 63) :
    ∃ y, reshape_dim_into src dst x = .ok y ∧
      y.sizesInt = (x.sizesInt.eraseIdx s.toNat).set d.toNat
        ((x.sizesInt.eraseIdx s.toNat).getD d.toNat 0 * x.sizesInt.getD s.toNat 0) ∧
      y.dim = x.dim - 1 := by
  obtain ⟨hs0, hs1⟩ := maybe_wrap_dim_range hs
  obtain ⟨hd0, hd1⟩ := maybe_wrap_dim_range hd
  have hdim := dim_eq_length x
  have hsn : s.toNat < x.sizesInt.length := by omega
  have hdn : d.toNat < x.sizesInt.length - 1 := by omega
  have hel : (x.sizesInt.eraseIdx s.toNat).length = x.sizesInt.length - 1 := by
    rw [List.length_eraseIdx, if_pos hsn]
  obtain ⟨hnn, hprod⟩ :=
    into_shape_facts x.sizesInt (sizesInt_nonneg x) s.toNat d.toNat hsn hdn
  obtain ⟨m, hm, -, hmn⟩ := movedim_ok x s d hs0 hs1 hd0 (by omega)
  obtain ⟨y, hy, hys⟩ := reshape_ok m _ hnn (by rw [hmn]; exact hprod)
  refine ⟨y, ?_, hys, ?_⟩
  · simp only [reshape_dim_into, into_new_shape_ok x src dst s d hs hd, hm, bind,
      Except.bind, mulInt64_eq _ _ (into_prod_nonneg x s.toNat d.toNat) hfit]
    exact hy
  · have : y.sizesInt.length = x.sizesInt.length - 1 := by
      rw [hys, List.length_set, hel]
    rw [dim_eq_length y]
    omega

/-- The result of `reshape_dim_outof` when the index is accepted, `size1` is positive
and divides the size of the axis. -/
theorem reshape_dim_outof_ok (x : Tensor) (src size1 s : Int)
    (hs : maybe_wrap_dim src x.dim = .ok s) (hpos : 0 < size1)
    (hdiv : (x.sizesInt.getD s.toNat 0).tmod size1 = 0) :
    ∃ y, reshape_dim_outof src size1 x = .ok y ∧
      y.sizesInt = x.sizesInt.take s.toNat ++
        size1 :: (x.sizesInt.getD s.toNat 0).tdiv size1 ::
          x.sizesInt.drop (s.toNat + 1) ∧
      y.dim = x.dim + 1 := by
  obtain ⟨hs0, hs1⟩ := maybe_wrap_dim_range hs
  have hdim := dim_eq_length x
  have hsn : s.toNat < x.sizesInt.length := by omega
  obtain ⟨y, hy, hys⟩ := reshape_ok x _
    (outof_shape_nonneg x.sizesInt (sizesInt_nonneg x) s.toNat hsn size1 hpos)
    (outof_shape_prod x.sizesInt s.toNat hsn size1 hdiv)
  refine ⟨y, ?_, hys, ?_⟩
  · simp only [reshape_dim_outof, outof_new_shape_ok x src size1 s hs hpos.ne' hdiv, bind,
      Except.bind]
    exact hy
  · have hl : y.sizesInt.length = x.sizesInt.length + 1 := by
      rw [hys]
      simp only [List.length_append, List.length_take, List.length_cons, List.length_drop]
      omega
    rw [dim_eq_length y]
    omega

/-- Splitting the folded axis again: the vector of `reshape_dim_outof` on the folded
shape is the shape with the removed entry re-inserted at `d`. -/
theorem split_after_fold (l : List Int) (s d : Nat) (hs : s < l.length)
    (hd : d < l.length - 1) (hne : l.getD s 0 ≠ 0) :
    ((l.eraseIdx s).set d ((l.eraseIdx s).getD d 0 * l.getD s 0)).take d ++
      l.getD s 0 ::
        ((((l.eraseIdx s).set d ((l.eraseIdx s).getD d 0 * l.getD s 0)).getD d 0).tdiv
          (l.getD s 0)) ::
        ((l.eraseIdx s).set d ((l.eraseIdx s).getD d 0 * l.getD s 0)).drop (d + 1) =
    (l.eraseIdx s).take d ++ l.getD s 0 :: (l.eraseIdx s).drop d := by
  have hel : (l.eraseIdx s).length = l.length - 1 := by
    rw [List.length_eraseIdx, if_pos hs]
  have hde : d < (l.eraseIdx s).length := by omega
  have htake : ((l.eraseIdx s).set d ((l.eraseIdx s).getD d 0 * l.getD s 0)).take d =
      (l.eraseIdx s).take d := by
    rw [List.set_eq_take_cons_drop _ hde]
    exact List.take_left' (List.length_take_of_le hde.le)
  rw [getD_set _ _ _ _ hde, if_pos rfl, Int.mul_tdiv_cancel _ hne, htake,
    List.drop_set_of_lt _ _ (Nat.lt_succ_self d), List.getD_eq_getElem _ 0 hde,
    List.getElem_cons_drop]

/-- Moving an axis onto its own position leaves the shape unchanged. -/
theorem movedim_same (l : List Int) (s : Nat) (hs : s < l.length) :
    (l.eraseIdx s).take s ++ l.getD s 0 :: (l.eraseIdx s).drop s = l := by
  have ht : (l.take s).length = s := List.length_take_of_le hs.le
  rw [List.eraseIdx_eq_take_drop_succ, List.take_left' ht, List.drop_left' ht]
  exact (list_split_at l s hs).symm

/-- Folding the two halves of a split axis: whether the first half (index `i`) or the
second half (index `i + 1`) is folded into position `i`, the original shape results. -/
theorem fold_after_split (l : List Int) (i : Nat) (a b : Int) (h : i < l.length)
    (hab : a * b = l.getD i 0) :
    ((l.take i ++ a :: b :: l.drop (i + 1)).eraseIdx i).set i
        (((l.take i ++ a :: b :: l.drop (i + 1)).eraseIdx i).getD i 0 *
          (l.take i ++ a :: b :: l.drop (i + 1)).getD i 0) = l ∧
    ((l.take i ++ a :: b :: l.drop (i + 1)).eraseIdx (i + 1)).set i
        (((l.take i ++ a :: b :: l.drop (i + 1)).eraseIdx (i + 1)).getD i 0 *
          (l.take i ++ a :: b :: l.drop (i + 1)).getD (i + 1) 0) = l := by
  induction l generalizing i with
  | nil => simp at h
  | cons c l ih =>
    cases i with
    | zero =>
      simp only [List.getD_cons_zero] at hab
      simp [← hab, mul_comm]
    | succ i =>
      simp only [List.length_cons, Nat.add_lt_add_iff_right] at h
      simp only [List.getD_cons_succ] at hab
      obtain ⟨h1, h2⟩ := ih i h hab
      constructor
      · simpa using h1
      · simpa using h2

/-- The two factors that line 76 multiplies when one half of a split axis is folded
into the other. -/
theorem fold_factors (l : List Int) (i : Nat) (a b : Int) (h : i < l.length) :
    ((l.take i ++ a :: b :: l.drop (i + 1)).eraseIdx i).getD i 0 *
        (l.take i ++ a :: b :: l.drop (i + 1)).getD i 0 = b * a ∧
    ((l.take i ++ a :: b :: l.drop (i + 1)).eraseIdx (i + 1)).getD i 0 *
        (l.take i ++ a :: b :: l.drop (i + 1)).getD (i + 1) 0 = a * b := by
  induction l generalizing i with
  | nil => simp at h
  | cons c l ih =>
    cases i with
    | zero => simp
    | succ i =>
      simp only [List.length_cons, Nat.add_lt_add_iff_right] at h
      obtain ⟨h1, h2⟩ := ih i h
      constructor
      · simpa using h1
      · simpa using h2

/-- When a product of non-negative factors fits in `int64_t` but one factor does not,
the other factor is zero. -/
theorem zero_of_overflow (P p : Int) (hP : 0 ≤ P) (hp : 2 ^ 63 ≤ p) (h : P * p < 2 ^ 63) :
    P = 0 := by
  by_contra hne
  have h1 : 1 ≤ P := by omega
  nlinarith

/-- The product of the vector of `reshape_dim_into` for a tensor whose element count
is an `int64_t` value, whether or not line 76 overflows. -/
theorem into_shape_prod_wrapped (l : List Int) (hl : ∀ a ∈ l, 0 ≤ a) (s d : Nat)
    (hs : s < l.length) (hd : d < l.length - 1) (hfit : l.prod < 2 ^ 63) :
    ((l.eraseIdx s).set d (mulInt64 ((l.eraseIdx s).getD d 0) (l.getD s 0))).prod =
      l.prod := by
  have hel : (l.eraseIdx s).length = l.length - 1 := by
    rw [List.length_eraseIdx, if_pos hs]
  have hde : d < (l.eraseIdx s).length := by omega
  have he : ∀ a ∈ l.eraseIdx s, 0 ≤ a := fun a ha => hl a (List.mem_of_mem_eraseIdx ha)
  have hA : 0 ≤ ((l.eraseIdx s).take d).prod :=
    List.prod_nonneg fun a ha => he a (List.mem_of_mem_take ha)
  have hB : 0 ≤ ((l.eraseIdx s).drop (d + 1)).prod :=
    List.prod_nonneg fun a ha => he a (List.mem_of_mem_drop ha)
  have hed : 0 ≤ (l.eraseIdx s).getD d 0 := by
    rw [List.getD_eq_getElem _ 0 hde]
    exact he _ (List.getElem_mem _)
  have hxs : 0 ≤ l.getD s 0 := by
    rw [List.getD_eq_getElem _ 0 hs]
    exact hl _ (List.getElem_mem _)
  have hnum : l.prod = ((l.eraseIdx s).take d).prod * ((l.eraseIdx s).drop (d + 1)).prod *
      ((l.eraseIdx s).getD d 0 * l.getD s 0) := by
    rw [prod_split_at l s hs]
    conv_lhs => rw [list_split_at (l.eraseIdx s) d hde]
    simp only [List.prod_append, List.prod_cons]
    ring
  rw [List.prod_set, if_pos hde]
  by_cases hp : (l.eraseIdx s).getD d 0 * l.getD s 0 < 2 ^ 63
  · rw [mulInt64_eq _ _ (mul_nonneg hed hxs) hp, hnum]
    ring
  · have hzero : ((l.eraseIdx s).take d).prod * ((l.eraseIdx s).drop (d + 1)).prod = 0 :=
      zero_of_overflow _ _ (mul_nonneg hA hB) (not_lt.1 hp) (by rw [← hnum]; exact hfit)
    rw [hnum, hzero, zero_mul]
    rcases mul_eq_zero.1 hzero with h0 | h0 <;> rw [h0] <;> ring

theorem movedim_sizesInt (x : Tensor) (s d : Int) (hs0 : 0 ≤ s) (hs : s < x.dim)
    (hd0 : 0 ≤ d) (hd : d < x.dim) :
    ∃ m, x.movedim s d = .ok m ∧
      m.sizesInt = (x.sizesInt.eraseIdx s.toNat).take d.toNat ++
        x.sizesInt.getD s.toNat 0 :: (x.sizesInt.eraseIdx s.toNat).drop d.toNat := by
  obtain ⟨m, hm, hms, -⟩ := movedim_ok x s d hs0 hs hd0 hd
  refine ⟨m, hm, ?_⟩
  have e2 : Int.ofNat (x.sizes.getD s.toNat 0)
      = (List.map Int.ofNat x.sizes).getD s.toNat 0 :=
    (List.getD_map x.sizes 0 Int.ofNat).symm
  simp only [Tensor.sizesInt, hms, List.map_append, List.map_cons, List.map_take,
    List.map_drop, List.eraseIdx_eq_take_drop_succ, e2]

theorem getPhysicalDim_eq (t : Tensor) (hb : Bool) (ld : Int) :
    getPhysicalDim t hb ld =
      (maybe_wrap_dim ld (if hb then t.dim - 1 else t.dim) >>= fun w =>
        .ok (if hb then w + 1 else w)) := by
  cases hb <;> simp [getPhysicalDim, rankWithoutBatchDim, bind, Except.bind]

theorem padLoop_cons (k : Nat) (B : Int) (rest : List Int) :
    padLoop k (B :: rest) = .ok (B :: (List.replicate k 1 ++ rest)) := by
  induction k generalizing rest with
  | zero => simp [padLoop]
  | succ k ih =>
    have hins : vecInsert (B :: rest) 1 1 = .ok (B :: 1 :: rest) := by
      simp [vecInsert]
    simp only [padLoop, hins, bind, Except.bind]
    rw [ih (1 :: rest), List.replicate_succ']
    simp

theorem prod_replicate_one_append (k : Nat) (l : List Int) :
    (List.replicate k 1 ++ l).prod = l.prod := by
  rw [List.prod_append, List.prod_replicate, one_pow, one_mul]

/-- The result of `maybePadToLogicalRank` on a tensor of rank at least one with the
marker present, when padding is needed. -/
theorem maybePad_ok (B : Nat) (rest : List Nat) (b logical_rank : Int)
    (h : (rest.length : Int) < logical_rank) :
    maybePadToLogicalRank ⟨B :: rest⟩ (some b) logical_rank =
      .ok ⟨B :: (List.replicate (logical_rank - rest.length).toNat 1 ++ rest)⟩ := by
  have hrank : rankWithoutBatchDim ⟨B :: rest⟩ (some b) = (rest.length : Int) := by
    simp [rankWithoutBatchDim, Tensor.dim]
  have hlt : ¬ (rest.length : Int) ≥ logical_rank := by omega
  have hsz : (Tensor.mk (B :: rest)).sizesInt = (B : Int) :: rest.map Int.ofNat := rfl
  simp only [maybePadToLogicalRank, Option.isNone_some, Bool.false_eq_true, if_false, hlt,
    hrank, hsz, padLoop_cons, bind, Except.bind]
  obtain ⟨y, hy, hys⟩ := reshape_ok ⟨B :: rest⟩
    ((B : Int) :: (List.replicate (logical_rank - rest.length).toNat 1 ++
      rest.map Int.ofNat))
    (by
      intro a ha
      simp only [List.mem_cons, List.mem_append, List.mem_replicate, List.mem_map] at ha
      rcases ha with rfl | ⟨-, rfl⟩ | ⟨n, -, rfl⟩
      · exact Int.ofNat_nonneg B
      · exact zero_le_one
      · exact Int.ofNat_nonneg n)
    (by
      simp only [Tensor.numel, shapeProd, hsz, List.prod_cons, prod_replicate_one_append])
  unfold Tensor.view
  rw [hy]
  congr 1
  apply tensor_eq_of_sizesInt
  rw [hys]
  simp [Tensor.sizesInt]

theorem drop_inserted (B : Nat) (k : Nat) (rest : List Nat) :
    (B :: (List.replicate k 1 ++ rest)).drop (1 + k) = rest := by
  rw [Nat.add_comm, List.drop_succ_cons]
  exact List.drop_left' (List.length_replicate k 1)

/-! ## The claims -/

/-- C1 (amended). For every tensor `x` of rank `n` and all `src`, `dst` accepted by the
dimension-wrap utility (`src` against `n`, `dst` against `n - 1`, wrapped to `s` and
`d`) for which the product of the entry at index `d` left after the removal and the
removed size `x.size(s)` is an `int64_t` value (below `2^63`), `reshape_dim_into src dst
x` returns a tensor of rank `n - 1` whose shape is the shape of `x` with entry `s`
removed and then the entry at index `d` multiplied by the removed size; entry by entry,
position `i` holds the `i`-th remaining size of `x`, times the removed size when
`i = d`. -/
theorem reshape_dim_into_result_shape (x : Tensor) (src dst s d : Int)
    (hs : maybe_wrap_dim src x.dim = .ok s)
    (hd : maybe_wrap_dim dst (x.dim - 1) = .ok d)
    (hfit : (x.sizesInt.eraseIdx s.toNat).getD d.toNat 0 * x.sizesInt.getD s.toNat 0
      < 2 ^ 63) :
    ∃ y, reshape_dim_into src dst x = .ok y ∧ y.dim = x.dim - 1 ∧
      y.sizesInt =
        List.modify (fun e => e * x.sizesInt.getD s.toNat 0) d.toNat
          (x.sizesInt.eraseIdx s.toNat) ∧
      ∀ i : Nat, (i : Int) < x.dim - 1 →
        y.sizesInt.getD i 0 =
          (if i < s.toNat then x.sizesInt.getD i 0 else x.sizesInt.getD (i + 1) 0) *
            (if i = d.toNat then x.sizesInt.getD s.toNat 0 else 1) := by
  obtain ⟨hs0, hs1⟩ := maybe_wrap_dim_range hs
  obtain ⟨hd0, hd1⟩ := maybe_wrap_dim_range hd
  have hdim := dim_eq_length x
  have hsn : s.toNat < x.sizesInt.length := by omega
  have hel : (x.sizesInt.eraseIdx s.toNat).length = x.sizesInt.length - 1 := by
    rw [List.length_eraseIdx, if_pos hsn]
  obtain ⟨y, hy, hys, hyd⟩ := reshape_dim_into_ok x src dst s d hs hd hfit
  refine ⟨y, hy, hyd, ?_, ?_⟩
  · rw [hys, modify_eq_set_getD _ _ _ (by omega)]
  · intro i hi
    rw [hys, getD_set _ _ _ _ (by omega), getD_eraseIdx, getD_eraseIdx]
    by_cases hid : i = d.toNat
    · subst hid
      simp
    · rw [if_neg (Ne.symm hid), if_neg hid, mul_one]

/-- Witness of the amended C1: shape `[2,3,4]`, `src = 0`, `dst = 1` gives `[3,8]`. -/
theorem reshape_dim_into_result_shape_witness :
    maybe_wrap_dim 0 (Tensor.mk [2, 3, 4]).dim = .ok 0 ∧
    maybe_wrap_dim 1 ((Tensor.mk [2, 3, 4]).dim - 1) = .ok 1 ∧
    ((Tensor.mk [2, 3, 4]).sizesInt.eraseIdx (0 : Int).toNat).getD (1 : Int).toNat 0 *
      (Tensor.mk [2, 3, 4]).sizesInt.getD (0 : Int).toNat 0 < 2 ^ 63 ∧
    reshape_dim_into 0 1 ⟨[2, 3, 4]⟩ = .ok ⟨[3, 8]⟩ ∧
    ∃ y, reshape_dim_into 0 1 ⟨[2, 3, 4]⟩ = .ok y ∧ y.dim = (Tensor.mk [2, 3, 4]).dim - 1 ∧
      y.sizesInt =
        List.modify (fun e => e * (Tensor.mk [2, 3, 4]).sizesInt.getD (0 : Int).toNat 0)
          (1 : Int).toNat ((Tensor.mk [2, 3, 4]).sizesInt.eraseIdx (0 : Int).toNat) ∧
      ∀ i : Nat, (i : Int) < (Tensor.mk [2, 3, 4]).dim - 1 →
        y.sizesInt.getD i 0 =
          (if i < (0 : Int).toNat then (Tensor.mk [2, 3, 4]).sizesInt.getD i 0
            else (Tensor.mk [2, 3, 4]).sizesInt.getD (i + 1) 0) *
            (if i = (1 : Int).toNat then (Tensor.mk [2, 3, 4]).sizesInt.getD (0 : Int).toNat 0
              else 1) :=
  ⟨by decide, by decide, by decide, by decide,
    reshape_dim_into_result_shape ⟨[2, 3, 4]⟩ 0 1 0 1 (by decide) (by decide)
      (by decide)⟩

/-- C1 as stated fails when the product overflows: on shape
`[4294967296, 0, 4294967296]` (element count 0) with `src = 0`, `dst = 1` both indices
are accepted and the claimed shape is `[0, 2^64]`, but line 76 multiplies two `int64_t`
values, `2^32 * 2^32` is reduced to 0, and the call returns shape `[0, 0]`. -/
theorem reshape_dim_into_overflow :
    (Tensor.mk [4294967296, 0, 4294967296]).numel = 0 ∧
    (∀ a ∈ (Tensor.mk [4294967296, 0, 4294967296]).sizesInt, a < 2 ^ 63) ∧
    maybe_wrap_dim 0 (Tensor.mk [4294967296, 0, 4294967296]).dim = .ok 0 ∧
    maybe_wrap_dim 1 ((Tensor.mk [4294967296, 0, 4294967296]).dim - 1) = .ok 1 ∧
    List.modify
      (fun e => e * (Tensor.mk [4294967296, 0, 4294967296]).sizesInt.getD (0 : Int).toNat 0)
      (1 : Int).toNat
      ((Tensor.mk [4294967296, 0, 4294967296]).sizesInt.eraseIdx (0 : Int).toNat) =
        [0, 18446744073709551616] ∧
    reshape_dim_into_new_shape 0 1 ⟨[4294967296, 0, 4294967296]⟩ = .ok (0, 1, [0, 0]) ∧
    reshape_dim_into 0 1 ⟨[4294967296, 0, 4294967296]⟩ = .ok ⟨[0, 0]⟩ := by
  decide

/-- C2 (amended). For every tensor `x` of rank `n`, every `src` accepted by the
dimension-wrap utility against `n` (wrapped to `s`) and every positive `size1` with
`x.size(s) % size1 == 0`, `reshape_dim_outof src size1 x` returns a tensor of rank
`n + 1` whose shape is that of `x` with the entry at `s` replaced by the two entries
`size1`, `x.size(s) / size1`: the entries before `s` are unchanged and those after `s`
are shifted right by one. -/
theorem reshape_dim_outof_result_shape (x : Tensor) (src size1 s : Int)
    (hs : maybe_wrap_dim src x.dim = .ok s) (hpos : 0 < size1)
    (hdiv : (x.sizesInt.getD s.toNat 0).tmod size1 = 0) :
    ∃ y, reshape_dim_outof src size1 x = .ok y ∧ y.dim = x.dim + 1 ∧
      y.sizesInt = x.sizesInt.take s.toNat ++
        size1 :: (x.sizesInt.getD s.toNat 0).tdiv size1 ::
          x.sizesInt.drop (s.toNat + 1) := by
  obtain ⟨y, hy, hys, hyd⟩ := reshape_dim_outof_ok x src size1 s hs hpos hdiv
  exact ⟨y, hy, hyd, hys⟩

/-- Witness of the amended C2: shape `[3,8]`, `src = 1`, `size1 = 2` gives `[3,2,4]`. -/
theorem reshape_dim_outof_result_shape_witness :
    maybe_wrap_dim 1 (Tensor.mk [3, 8]).dim = .ok 1 ∧ (0 : Int) < 2 ∧
    ((Tensor.mk [3, 8]).sizesInt.getD (1 : Int).toNat 0).tmod 2 = 0 ∧
    reshape_dim_outof 1 2 ⟨[3, 8]⟩ = .ok ⟨[3, 2, 4]⟩ ∧
    ∃ y, reshape_dim_outof 1 2 ⟨[3, 8]⟩ = .ok y ∧ y.dim = (Tensor.mk [3, 8]).dim + 1 ∧
      y.sizesInt = (Tensor.mk [3, 8]).sizesInt.take (1 : Int).toNat ++
        2 :: ((Tensor.mk [3, 8]).sizesInt.getD (1 : Int).toNat 0).tdiv 2 ::
          (Tensor.mk [3, 8]).sizesInt.drop ((1 : Int).toNat + 1) :=
  ⟨by decide, by decide, by decide, by decide,
    reshape_dim_outof_result_shape ⟨[3, 8]⟩ 1 2 1 (by decide) (by decide) (by decide)⟩

/-- C2 as stated fails: on shape `[3,8]` with `src = 1` and `size1 = -2` the index is
accepted and `8 % -2 == 0`, yet the call hands the vector `[3,-2,-4]` to `at::reshape`,
which rejects it, so no tensor is returned. -/
theorem reshape_dim_outof_negative_size1 :
    maybe_wrap_dim 1 (Tensor.mk [3, 8]).dim = .ok 1 ∧
    ((Tensor.mk [3, 8]).sizesInt.getD (1 : Int).toNat 0).tmod (-2) = 0 ∧
    reshape_dim_outof_new_shape 1 (-2) ⟨[3, 8]⟩ = .ok [3, -2, -4] ∧
    reshape_dim_outof 1 (-2) ⟨[3, 8]⟩ = .error .invalidShape ∧
    ¬ ∃ y, reshape_dim_outof 1 (-2) ⟨[3, 8]⟩ = .ok y := by
  refine ⟨by decide, by decide, by decide, by decide, ?_⟩
  rintro ⟨y, hy⟩
  have h : reshape_dim_outof 1 (-2) ⟨[3, 8]⟩ = .error .invalidShape := by decide
  rw [h] at hy
  cases hy

/-- C3. Fold and unfold preserve the total element count: whenever `reshape_dim_into`
or `reshape_dim_outof` reaches its call of `at::reshape`, the product of the entries of
the vector it passes equals the product of the entries of the shape of `x`: for the
fold, whenever the element count of `x` is an `int64_t` value, as `numel()` returns it,
and in any case whenever the call succeeds; for the split, always.  Hence every call
that succeeds returns a tensor with the element count of `x`. -/
theorem fold_unfold_preserve_numel (x : Tensor) (src dst size1 : Int) :
    (∀ s d ns, reshape_dim_into_new_shape src dst x = .ok (s, d, ns) →
      x.numel < 2 ^ 63 → shapeProd ns = shapeProd x.sizesInt) ∧
    (∀ s d ns y, reshape_dim_into_new_shape src dst x = .ok (s, d, ns) →
      reshape_dim_into src dst x = .ok y → shapeProd ns = shapeProd x.sizesInt) ∧
    (∀ ns, reshape_dim_outof_new_shape src size1 x = .ok ns →
      shapeProd ns = shapeProd x.sizesInt) ∧
    (∀ y, reshape_dim_into src dst x = .ok y → shapeProd y.sizesInt = shapeProd x.sizesInt) ∧
    (∀ y, reshape_dim_outof src size1 x = .ok y →
      shapeProd y.sizesInt = shapeProd x.sizesInt) := by
  have hlen := sizesInt_length x
  have hdim : x.dim = (x.sizes.length : Int) := rfl
  have into : ∀ s d ns, reshape_dim_into_new_shape src dst x = .ok (s, d, ns) →
      x.numel < 2 ^ 63 → shapeProd ns = shapeProd x.sizesInt := by
    intro s d ns h hx
    obtain ⟨hs, hd, rfl⟩ := into_new_shape_inv h
    obtain ⟨hs0, hs1⟩ := maybe_wrap_dim_range hs
    obtain ⟨hd0, hd1⟩ := maybe_wrap_dim_range hd
    exact into_shape_prod_wrapped x.sizesInt (sizesInt_nonneg x) s.toNat d.toNat
      (by omega) (by omega) hx
  have outof : ∀ ns, reshape_dim_outof_new_shape src size1 x = .ok ns →
      shapeProd ns = shapeProd x.sizesInt := by
    intro ns h
    obtain ⟨s, hs, -, hdiv, rfl⟩ := outof_new_shape_inv h
    obtain ⟨hs0, hs1⟩ := maybe_wrap_dim_range hs
    exact outof_shape_prod x.sizesInt s.toNat (by omega) size1 hdiv
  have passed : ∀ s d ns y, reshape_dim_into_new_shape src dst x = .ok (s, d, ns) →
      reshape_dim_into src dst x = .ok y →
      y.sizesInt = ns ∧ shapeProd ns = shapeProd x.sizesInt := by
    intro s d ns y h hy
    obtain ⟨hs, hd, -⟩ := into_new_shape_inv h
    obtain ⟨hs0, hs1⟩ := maybe_wrap_dim_range hs
    obtain ⟨hd0, hd1⟩ := maybe_wrap_dim_range hd
    obtain ⟨m, hm, -, hmn⟩ := movedim_ok x s d hs0 hs1 hd0 (by omega)
    simp only [reshape_dim_into, h, hm, bind, Except.bind] at hy
    obtain ⟨hys, hyp⟩ := reshape_eq_ok hy
    exact ⟨hys, by rw [hyp, hmn]; rfl⟩
  refine ⟨into, fun s d ns y h hy => (passed s d ns y h hy).2, outof, ?_, ?_⟩
  · intro y hy
    cases h : reshape_dim_into_new_shape src dst x with
    | error e => simp [reshape_dim_into, h, bind, Except.bind] at hy
    | ok r =>
      obtain ⟨s, d, ns⟩ := r
      obtain ⟨hys, hp⟩ := passed s d ns y h hy
      rw [hys]
      exact hp
  · intro y hy
    cases h : reshape_dim_outof_new_shape src size1 x with
    | error e => simp [reshape_dim_outof, h, bind, Except.bind] at hy
    | ok ns =>
      simp only [reshape_dim_outof, h, bind, Except.bind] at hy
      rw [(reshape_eq_ok hy).1]
      exact outof ns h

/-- Witness of C3: `2*3*4 == 3*8 == 24` for the fold of `[2,3,4]`, and `3*8 == 3*2*4`
for the split of `[3,8]`. -/
theorem fold_unfold_preserve_numel_witness :
    reshape_dim_into_new_shape 0 1 ⟨[2, 3, 4]⟩ = .ok (0, 1, [3, 8]) ∧
    (Tensor.mk [2, 3, 4]).numel < 2 ^ 63 ∧
    shapeProd [3, 8] = shapeProd (Tensor.mk [2, 3, 4]).sizesInt ∧
    shapeProd (Tensor.mk [2, 3, 4]).sizesInt = 24 ∧
    reshape_dim_outof_new_shape 1 2 ⟨[3, 8]⟩ = .ok [3, 2, 4] ∧
    shapeProd [3, 2, 4] = shapeProd (Tensor.mk [3, 8]).sizesInt :=
  ⟨by decide, by decide,
    (fold_unfold_preserve_numel ⟨[2, 3, 4]⟩ 0 1 1).1 0 1 [3, 8] (by decide) (by decide),
    by decide, by decide,
    (fold_unfold_preserve_numel ⟨[3, 8]⟩ 1 0 2).2.2.1 [3, 2, 4] (by decide)⟩

/-- C4 (amended). `reshape_dim_outof` undoes `reshape_dim_into` on shapes whenever the
folded axis is not empty and the fold does not overflow: for every tensor `x` (of rank
at least 2), `src` accepted against the rank and `dst` accepted against the rank minus
one, wrapped to `s` and `d`, with `x.size(src) != 0` and the product of line 76 an
`int64_t` value (below `2^63`), the call
`reshape_dim_outof(dst, x.size(src), reshape_dim_into(src, dst, x))` succeeds and
returns a tensor whose shape is that of `x` with entry `s` removed and re-inserted at
index `d`.  This is the tensor `x.movedim(s, d)`, and it is `x.movedim(src, dst)`
whenever `dst >= 0`; when `s = d` it is `x`. -/
theorem reshape_dim_outof_after_into (x : Tensor) (src dst s d : Int)
    (hs : maybe_wrap_dim src x.dim = .ok s)
    (hd : maybe_wrap_dim dst (x.dim - 1) = .ok d)
    (hne : x.sizesInt.getD s.toNat 0 ≠ 0)
    (hfit : (x.sizesInt.eraseIdx s.toNat).getD d.toNat 0 * x.sizesInt.getD s.toNat 0
      < 2 ^ 63) :
    ∃ m, x.movedim s d = .ok m ∧
      m.sizesInt = (x.sizesInt.eraseIdx s.toNat).take d.toNat ++
        x.sizesInt.getD s.toNat 0 :: (x.sizesInt.eraseIdx s.toNat).drop d.toNat ∧
      (reshape_dim_into src dst x >>= fun y =>
        x.size src >>= fun size1 => reshape_dim_outof dst size1 y) = .ok m ∧
      (0 ≤ dst → x.movedim src dst = .ok m) ∧
      (s = d → m = x) := by
  obtain ⟨hs0, hs1⟩ := maybe_wrap_dim_range hs
  obtain ⟨hd0, hd1⟩ := maybe_wrap_dim_range hd
  have hdim := dim_eq_length x
  have hsn : s.toNat < x.sizesInt.length := by omega
  have hdn : d.toNat < x.sizesInt.length - 1 := by omega
  have hel : (x.sizesInt.eraseIdx s.toNat).length = x.sizesInt.length - 1 := by
    rw [List.length_eraseIdx, if_pos hsn]
  obtain ⟨m, hm, hms⟩ := movedim_sizesInt x s d hs0 hs1 hd0 (by omega)
  obtain ⟨y, hy, hys, hyd⟩ := reshape_dim_into_ok x src dst s d hs hd hfit
  have hpos : 0 < x.sizesInt.getD s.toNat 0 := by
    have : 0 ≤ x.sizesInt.getD s.toNat 0 := by
      rw [List.getD_eq_getElem _ 0 hsn]
      exact sizesInt_nonneg x _ (List.getElem_mem _)
    omega
  have hwd : maybe_wrap_dim dst y.dim = .ok d := by rw [hyd]; exact hd
  have hdiv : (y.sizesInt.getD d.toNat 0).tmod (x.sizesInt.getD s.toNat 0) = 0 := by
    rw [hys, getD_set _ _ _ _ (by omega), if_pos rfl]
    exact Int.mul_tmod_left _ _
  obtain ⟨z, hz, hzs, -⟩ := reshape_dim_outof_ok y dst _ d hwd hpos hdiv
  have hzm : z = m := by
    apply tensor_eq_of_sizesInt
    rw [hzs, hms, hys]
    exact split_after_fold x.sizesInt s.toNat d.toNat hsn hdn hne
  refine ⟨m, hm, hms, ?_, ?_, ?_⟩
  · simp only [hy, size_ok x src s hs, bind, Except.bind]
    rw [hz, hzm]
  · intro hdst
    obtain ⟨-, -, hdv⟩ := (maybe_wrap_dim_ok_iff dst (x.dim - 1) d).1 hd
    rw [if_neg (by omega)] at hdv
    have hwn : maybe_wrap_dim dst x.dim = .ok d := by
      rw [← hdv]
      exact maybe_wrap_dim_of_range hd0 (by omega)
    rw [← hm]
    simp only [Tensor.movedim, hs, hwn, maybe_wrap_dim_of_range hs0 hs1,
      maybe_wrap_dim_of_range hd0 (show d < x.dim by omega), bind, Except.bind]
  · intro hsd
    apply tensor_eq_of_sizesInt
    rw [hms, ← hsd]
    exact movedim_same x.sizesInt s.toNat hsn

/-- Witness of the amended C4: shape `[2,3,4]`, `src = 2`, `dst = 0`; the round trip
returns shape `[4,2,3]`. -/
theorem reshape_dim_outof_after_into_witness :
    maybe_wrap_dim 2 (Tensor.mk [2, 3, 4]).dim = .ok 2 ∧
    maybe_wrap_dim 0 ((Tensor.mk [2, 3, 4]).dim - 1) = .ok 0 ∧
    (Tensor.mk [2, 3, 4]).sizesInt.getD (2 : Int).toNat 0 ≠ 0 ∧
    ((Tensor.mk [2, 3, 4]).sizesInt.eraseIdx (2 : Int).toNat).getD (0 : Int).toNat 0 *
      (Tensor.mk [2, 3, 4]).sizesInt.getD (2 : Int).toNat 0 < 2 ^ 63 ∧
    (Tensor.mk [2, 3, 4]).movedim 2 0 = .ok ⟨[4, 2, 3]⟩ ∧
    ∃ m, (Tensor.mk [2, 3, 4]).movedim 2 0 = .ok m ∧
      m.sizesInt = ((Tensor.mk [2, 3, 4]).sizesInt.eraseIdx (2 : Int).toNat).take
          (0 : Int).toNat ++
        (Tensor.mk [2, 3, 4]).sizesInt.getD (2 : Int).toNat 0 ::
          ((Tensor.mk [2, 3, 4]).sizesInt.eraseIdx (2 : Int).toNat).drop (0 : Int).toNat ∧
      (reshape_dim_into 2 0 ⟨[2, 3, 4]⟩ >>= fun y =>
        (Tensor.mk [2, 3, 4]).size 2 >>= fun size1 => reshape_dim_outof 0 size1 y) = .ok m ∧
      ((0 : Int) ≤ 0 → (Tensor.mk [2, 3, 4]).movedim 2 0 = .ok m) ∧
      ((2 : Int) = 0 → m = ⟨[2, 3, 4]⟩) :=
  ⟨by decide, by decide, by decide, by decide, by decide,
    reshape_dim_outof_after_into ⟨[2, 3, 4]⟩ 2 0 2 0 (by decide) (by decide) (by decide)
      (by decide)⟩

/-- C4 as stated fails, in three ways.  On a tensor with an empty axis, shape `[0,3]`
with `src = dst = 0`, both indices are accepted and the fold returns shape `[0]`, but
`x.size(src)` is `0` and `reshape_dim_outof` computes `shape[src] % 0`, which is
undefined: the round trip returns no tensor.  On shape `[4294967296, 0, 4294967296]`
with `src = 0`, `dst = 1`, where `x.size(src) != 0`, the product of line 76 overflows
and the round trip returns shape `[0, 4294967296, 0]`, not the shape
`[0, 4294967296, 4294967296]` of `x.movedim(src, dst)`.  For a negative `dst`, shape
`[2,3,4]` with `src = 0`, `dst = -1`, the round trip returns `[3,2,4]`, the shape of
`x.movedim(0, 1)`, while `x.movedim(src, dst)`, which wraps `dst` against the full
rank, has shape `[3,4,2]`. -/
theorem reshape_dim_outof_after_into_fails :
    (maybe_wrap_dim 0 (Tensor.mk [0, 3]).dim = .ok 0 ∧
      maybe_wrap_dim 0 ((Tensor.mk [0, 3]).dim - 1) = .ok 0 ∧
      reshape_dim_into 0 0 ⟨[0, 3]⟩ = .ok ⟨[0]⟩ ∧
      (Tensor.mk [0, 3]).size 0 = .ok 0 ∧
      (reshape_dim_into 0 0 ⟨[0, 3]⟩ >>= fun y =>
        (Tensor.mk [0, 3]).size 0 >>= fun size1 => reshape_dim_outof 0 size1 y) =
          .error .undefinedBehaviour) ∧
    (maybe_wrap_dim 0 (Tensor.mk [4294967296, 0, 4294967296]).dim = .ok 0 ∧
      maybe_wrap_dim 1 ((Tensor.mk [4294967296, 0, 4294967296]).dim - 1) = .ok 1 ∧
      (Tensor.mk [4294967296, 0, 4294967296]).size 0 = .ok 4294967296 ∧
      (reshape_dim_into 0 1 ⟨[4294967296, 0, 4294967296]⟩ >>= fun y =>
        (Tensor.mk [4294967296, 0, 4294967296]).size 0 >>= fun size1 =>
          reshape_dim_outof 1 size1 y) = .ok ⟨[0, 4294967296, 0]⟩ ∧
      (Tensor.mk [4294967296, 0, 4294967296]).movedim 0 1 =
        .ok ⟨[0, 4294967296, 4294967296]⟩) ∧
    (maybe_wrap_dim 0 (Tensor.mk [2, 3, 4]).dim = .ok 0 ∧
      maybe_wrap_dim (-1) ((Tensor.mk [2, 3, 4]).dim - 1) = .ok 1 ∧
      (Tensor.mk [2, 3, 4]).size 0 = .ok 2 ∧
      (reshape_dim_into 0 (-1) ⟨[2, 3, 4]⟩ >>= fun y =>
        (Tensor.mk [2, 3, 4]).size 0 >>= fun size1 => reshape_dim_outof (-1) size1 y) =
          .ok ⟨[3, 2, 4]⟩ ∧
      (Tensor.mk [2, 3, 4]).movedim 0 (-1) = .ok ⟨[3, 4, 2]⟩) := by
  decide

/-- C5 (amended). Splitting then folding restores the tensor shape: for every tensor
`x` (of rank at least 1), every `src` accepted against the rank (negative values
included), the size `x.size(src)` being an `int64_t` value (below `2^63`) as `sizes()`
holds it, and every positive `size1` with `x.size(src) % size1 == 0`, the call
`reshape_dim_into(src, src, reshape_dim_outof(src, size1, x))` succeeds and returns a
tensor with the shape of `x`. -/
theorem reshape_dim_into_after_outof (x : Tensor) (src size1 s : Int)
    (hs : maybe_wrap_dim src x.dim = .ok s)
    (hx : x.sizesInt.getD s.toNat 0 < 2 ^ 63) (hpos : 0 < size1)
    (hdiv : (x.sizesInt.getD s.toNat 0).tmod size1 = 0) :
    (reshape_dim_outof src size1 x >>= fun y => reshape_dim_into src src y) = .ok x := by
  obtain ⟨hs0, hs1⟩ := maybe_wrap_dim_range hs
  obtain ⟨hr1, hr2, hsv⟩ := (maybe_wrap_dim_ok_iff src x.dim s).1 hs
  have hdim := dim_eq_length x
  have hsn : s.toNat < x.sizesInt.length := by omega
  obtain ⟨y, hy, hys, hyd⟩ := reshape_dim_outof_ok x src size1 s hs hpos hdiv
  have hmul : size1 * (x.sizesInt.getD s.toNat 0).tdiv size1 = x.sizesInt.getD s.toNat 0 := by
    have := Int.tmod_add_tdiv (x.sizesInt.getD s.toNat 0) size1
    rw [hdiv, zero_add] at this
    exact this
  obtain ⟨f1, f2⟩ := fold_after_split x.sizesInt s.toNat size1 _ hsn hmul
  obtain ⟨g1, g2⟩ := fold_factors x.sizesInt s.toNat size1
    ((x.sizesInt.getD s.toNat 0).tdiv size1) hsn
  have hxs : x.sizesInt.getD s.toNat 0 < 2 ^ 63 := hx
  have hwd : maybe_wrap_dim src (y.dim - 1) = .ok s := by
    rw [hyd, add_sub_cancel_right]; exact hs
  have key : ∀ s1 : Int, maybe_wrap_dim src y.dim = .ok s1 →
      (s1.toNat = s.toNat ∨ s1.toNat = s.toNat + 1) →
      (reshape_dim_outof src size1 x >>= fun y => reshape_dim_into src src y) = .ok x := by
    intro s1 hs1w hcase
    have hfit : (y.sizesInt.eraseIdx s1.toNat).getD s.toNat 0 * y.sizesInt.getD s1.toNat 0
        < 2 ^ 63 := by
      rw [hys]
      rcases hcase with h | h <;> rw [h]
      · rw [g1, mul_comm, hmul]; exact hxs
      · rw [g2, hmul]; exact hxs
    obtain ⟨z, hz, hzs, -⟩ := reshape_dim_into_ok y src src s1 s hs1w hwd hfit
    have hzx : z = x := by
      apply tensor_eq_of_sizesInt
      rw [hzs, hys]
      rcases hcase with h | h <;> rw [h]
      · exact f1
      · exact f2
    simp only [hy, bind, Except.bind]
    rw [hz, hzx]
  by_cases hneg : src < 0
  · rw [if_pos hneg] at hsv
    refine key (src + y.dim) ?_ (Or.inr (by omega))
    rw [maybe_wrap_dim_ok_iff, if_pos hneg]
    exact ⟨by omega, by omega, rfl⟩
  · rw [if_neg hneg] at hsv
    refine key src ?_ (Or.inl (by rw [hsv]))
    rw [maybe_wrap_dim_ok_iff, if_neg hneg]
    exact ⟨by omega, by omega, rfl⟩

/-- Witness of the amended C5: shape `[3,8]`, `src = -1`, `size1 = 2`. -/
theorem reshape_dim_into_after_outof_witness :
    maybe_wrap_dim (-1) (Tensor.mk [3, 8]).dim = .ok 1 ∧
    (Tensor.mk [3, 8]).sizesInt.getD (1 : Int).toNat 0 < 2 ^ 63 ∧ (0 : Int) < 2 ∧
    ((Tensor.mk [3, 8]).sizesInt.getD (1 : Int).toNat 0).tmod 2 = 0 ∧
    (reshape_dim_outof (-1) 2 ⟨[3, 8]⟩ >>= fun y => reshape_dim_into (-1) (-1) y) =
      .ok ⟨[3, 8]⟩ :=
  ⟨by decide, by decide, by decide, by decide,
    reshape_dim_into_after_outof ⟨[3, 8]⟩ (-1) 2 1 (by decide) (by decide) (by decide)
      (by decide)⟩

/-- C5 as stated fails for a negative divisor: on shape `[8]` with `src = 0` and
`size1 = -2`, which divides `8`, the split hands `[-2,-4]` to `at::reshape`, which
rejects it, so the composed call returns no tensor. -/
theorem reshape_dim_into_after_outof_negative_size1 :
    maybe_wrap_dim 0 (Tensor.mk [8]).dim = .ok 0 ∧
    (Tensor.mk [8]).size 0 = .ok 8 ∧ (8 : Int).tmod (-2) = 0 ∧ (-2 : Int) ∣ 8 ∧
    reshape_dim_outof 0 (-2) ⟨[8]⟩ = .error .invalidShape ∧
    (reshape_dim_outof 0 (-2) ⟨[8]⟩ >>= fun y => reshape_dim_into 0 0 y) =
      .error .invalidShape := by
  decide

/-- C6 (amended). For every tensor `x`, every `src` accepted against the rank of `x`
(wrapped to `s`) and every nonzero `size1`: `reshape_dim_outof src size1 x` raises the
internal-assert failure if and only if `x.size(s) % size1 != 0`; otherwise the vector
for the reshape is built and the call is the `at::reshape` of `x` to that vector. -/
theorem reshape_dim_outof_assert_iff (x : Tensor) (src size1 s : Int)
    (hs : maybe_wrap_dim src x.dim = .ok s) (hne : size1 ≠ 0) :
    (reshape_dim_outof src size1 x = .error .internalAssert ↔
      (x.sizesInt.getD s.toNat 0).tmod size1 ≠ 0) ∧
    ((x.sizesInt.getD s.toNat 0).tmod size1 = 0 →
      ∃ shape, reshape_dim_outof_new_shape src size1 x = .ok shape ∧
        reshape_dim_outof src size1 x = reshape x shape) := by
  have hproceed : (x.sizesInt.getD s.toNat 0).tmod size1 = 0 →
      ∃ shape, reshape_dim_outof_new_shape src size1 x = .ok shape ∧
        reshape_dim_outof src size1 x = reshape x shape := by
    intro hdiv
    refine ⟨_, outof_new_shape_ok x src size1 s hs hne hdiv, ?_⟩
    simp only [reshape_dim_outof, outof_new_shape_ok x src size1 s hs hne hdiv, bind,
      Except.bind]
  refine ⟨⟨?_, ?_⟩, hproceed⟩
  · intro h hdiv
    obtain ⟨shape, -, heq⟩ := hproceed hdiv
    rw [heq] at h
    exact reshape_ne_internalAssert x shape h
  · intro hdiv
    simp only [reshape_dim_outof, outof_new_shape_assert x src size1 s hs hne hdiv, bind,
      Except.bind]

/-- Witness of the amended C6: on shape `[3,8]` with `src = 1`, `size1 = 3` raises the
internal assert (`8 % 3 == 2`). -/
theorem reshape_dim_outof_assert_iff_witness :
    maybe_wrap_dim 1 (Tensor.mk [3, 8]).dim = .ok 1 ∧ (3 : Int) ≠ 0 ∧
    reshape_dim_outof 1 3 ⟨[3, 8]⟩ = .error .internalAssert ∧
    ((reshape_dim_outof 1 3 ⟨[3, 8]⟩ = .error .internalAssert ↔
      ((Tensor.mk [3, 8]).sizesInt.getD (1 : Int).toNat 0).tmod 3 ≠ 0) ∧
    (((Tensor.mk [3, 8]).sizesInt.getD (1 : Int).toNat 0).tmod 3 = 0 →
      ∃ shape, reshape_dim_outof_new_shape 1 3 ⟨[3, 8]⟩ = .ok shape ∧
        reshape_dim_outof 1 3 ⟨[3, 8]⟩ = reshape ⟨[3, 8]⟩ shape)) :=
  ⟨by decide, by decide, by decide,
    reshape_dim_outof_assert_iff ⟨[3, 8]⟩ 1 3 1 (by decide) (by decide)⟩

/-- C6 as stated fails for `size1 = 0`: on shape `[8]` with `src = 0` the expression
`shape[src] % size1` divides by zero, which is undefined; the call neither raises the
internal-assert failure nor builds a vector for the reshape. -/
theorem reshape_dim_outof_zero_size1 :
    maybe_wrap_dim 0 (Tensor.mk [8]).dim = .ok 0 ∧
    reshape_dim_outof 0 0 ⟨[8]⟩ = .error .undefinedBehaviour ∧
    reshape_dim_outof 0 0 ⟨[8]⟩ ≠ .error .internalAssert ∧
    reshape_dim_outof_new_shape 0 0 ⟨[8]⟩ = .error .undefinedBehaviour ∧
    ¬ ∃ shape, reshape_dim_outof_new_shape 0 0 ⟨[8]⟩ = .ok shape := by
  refine ⟨by decide, by decide, by decide, by decide, ?_⟩
  rintro ⟨shape, h⟩
  have hu : reshape_dim_outof_new_shape 0 0 ⟨[8]⟩ = .error .undefinedBehaviour := by decide
  rw [hu] at h
  cases h

/-- C7. For every tensor of rank `r`, with `L = r` when `has_batch_dim` is false and
`L = r - 1` when it is true, and every `logical_dim` with `-L <= logical_dim < L`,
`getPhysicalDim` returns `w` when `has_batch_dim` is false and `w + 1` when it is true,
where `w = logical_dim` if `logical_dim >= 0` and `w = logical_dim + L` otherwise. -/
theorem getPhysicalDim_value (tensor : Tensor) (has_batch_dim : Bool)
    (logical_dim L : Int)
    (hL : L = if has_batch_dim then tensor.dim - 1 else tensor.dim)
    (hlo : -L ≤ logical_dim) (hhi : logical_dim < L) :
    getPhysicalDim tensor has_batch_dim logical_dim =
      .ok (if has_batch_dim
        then (if 0 ≤ logical_dim then logical_dim else logical_dim + L) + 1
        else (if 0 ≤ logical_dim then logical_dim else logical_dim + L)) := by
  have hw : maybe_wrap_dim logical_dim L =
      .ok (if 0 ≤ logical_dim then logical_dim else logical_dim + L) := by
    rw [maybe_wrap_dim_ok_iff]
    refine ⟨hlo, hhi, ?_⟩
    by_cases h : 0 ≤ logical_dim
    · rw [if_pos h, if_neg (by omega)]
    · rw [if_neg h, if_pos (by omega)]
  rw [getPhysicalDim_eq, ← hL, hw]
  rfl

/-- Witness of C7: rank 4, `has_batch_dim = true`, `logical_dim = -1` gives 3. -/
theorem getPhysicalDim_value_witness :
    (3 : Int) = (if true then (Tensor.mk [5, 2, 3, 4]).dim - 1
      else (Tensor.mk [5, 2, 3, 4]).dim) ∧
    -(3 : Int) ≤ -1 ∧ (-1 : Int) < 3 ∧
    getPhysicalDim ⟨[5, 2, 3, 4]⟩ true (-1) = .ok 3 :=
  ⟨by decide, by decide, by decide,
    getPhysicalDim_value ⟨[5, 2, 3, 4]⟩ true (-1) 3 (by decide) (by decide) (by decide)⟩

/-- C8. For every tensor with unbatched rank `L` (the rank, minus one when
`has_batch_dim` is true) and every `logical_dim`, `getPhysicalDim` raises the
invalid-dimension-index failure of the dimension-wrap utility whenever
`logical_dim < -L` or `logical_dim >= L`, and returns normally otherwise. -/
theorem getPhysicalDim_rejects_out_of_range (tensor : Tensor) (has_batch_dim : Bool)
    (logical_dim L : Int)
    (hL : L = if has_batch_dim then tensor.dim - 1 else tensor.dim) :
    ((logical_dim < -L ∨ L ≤ logical_dim) →
      getPhysicalDim tensor has_batch_dim logical_dim = .error .indexError) ∧
    (¬ (logical_dim < -L ∨ L ≤ logical_dim) →
      ∃ p, getPhysicalDim tensor has_batch_dim logical_dim = .ok p) := by
  constructor
  · intro h
    have hw : maybe_wrap_dim logical_dim L = .error .indexError := by
      unfold maybe_wrap_dim
      rw [if_neg (by omega)]
    rw [getPhysicalDim_eq, ← hL, hw]
    rfl
  · intro h
    have hw : maybe_wrap_dim logical_dim L =
        .ok (if logical_dim < 0 then logical_dim + L else logical_dim) := by
      unfold maybe_wrap_dim
      rw [if_pos (by omega)]
    rw [getPhysicalDim_eq, ← hL, hw]
    exact ⟨_, rfl⟩

/-- Witness of C8: on a tensor of rank 4 with a batch axis (`L = 3`), `logical_dim = 3`
is rejected. -/
theorem getPhysicalDim_rejects_out_of_range_witness :
    (3 : Int) = (if true then (Tensor.mk [5, 2, 3, 4]).dim - 1
      else (Tensor.mk [5, 2, 3, 4]).dim) ∧
    ((3 : Int) < -3 ∨ (3 : Int) ≤ 3) ∧
    getPhysicalDim ⟨[5, 2, 3, 4]⟩ true 3 = .error .indexError :=
  ⟨by decide, by decide,
    (getPhysicalDim_rejects_out_of_range ⟨[5, 2, 3, 4]⟩ true 3 3 (by decide)).1
      (by decide)⟩

/-- C9. For every tensor whose shape is `B` followed by a list `rest`, with the marker
present, and every target `logical_rank`: if `length rest >= logical_rank` the tensor is
returned unchanged; otherwise the result shape is `B`, then
`logical_rank - length rest` entries equal to 1, then `rest` unchanged, so that
`rankWithoutBatchDim` of the result equals `logical_rank`.  When the marker is absent
every tensor is returned unchanged for every `logical_rank`. -/
theorem maybePadToLogicalRank_shape (B : Nat) (rest : List Nat) (b logical_rank : Int) :
    ((rest.length : Int) ≥ logical_rank →
      maybePadToLogicalRank ⟨B :: rest⟩ (some b) logical_rank = .ok ⟨B :: rest⟩) ∧
    ((rest.length : Int) < logical_rank →
      ∃ y, maybePadToLogicalRank ⟨B :: rest⟩ (some b) logical_rank = .ok y ∧
        y.sizes = B :: (List.replicate (logical_rank - rest.length).toNat 1 ++ rest) ∧
        rankWithoutBatchDim y (some b) = logical_rank) ∧
    (∀ t : Tensor, maybePadToLogicalRank t none logical_rank = .ok t) := by
  refine ⟨?_, ?_, ?_⟩
  · intro h
    have hrank : rankWithoutBatchDim ⟨B :: rest⟩ (some b) = (rest.length : Int) := by
      simp [rankWithoutBatchDim, Tensor.dim]
    simp only [maybePadToLogicalRank, Option.isNone_some, Bool.false_eq_true, if_false,
      hrank, h, if_true]
  · intro h
    refine ⟨_, maybePad_ok B rest b logical_rank h, rfl, ?_⟩
    simp only [rankWithoutBatchDim, Tensor.dim, Option.isSome_some, if_true,
      List.length_cons, List.length_append, List.length_replicate]
    push_cast
    omega
  · intro t
    simp [maybePadToLogicalRank]

/-- Witness of C9: shape `[7,4]`, target 3 gives `[7,1,1,4]`. -/
theorem maybePadToLogicalRank_shape_witness :
    (([4] : List Nat).length : Int) < 3 ∧
    maybePadToLogicalRank ⟨[7, 4]⟩ (some 0) 3 = .ok ⟨[7, 1, 1, 4]⟩ ∧
    ∃ y, maybePadToLogicalRank ⟨7 :: [4]⟩ (some 0) 3 = .ok y ∧
      y.sizes = 7 :: (List.replicate ((3 : Int) - ([4] : List Nat).length).toNat 1 ++ [4]) ∧
      rankWithoutBatchDim y (some 0) = 3 :=
  ⟨by decide, by decide, (maybePadToLogicalRank_shape 7 [4] 0 3).2.1 (by decide)⟩

/-- C10 (amended). For every tensor of rank at least one whose batch axis is axis 0
(marker present with index 0) and every target rank, `maybePadToLogicalRank` returns a
tensor obtained by inserting `k >= 0` axes: axis 0 keeps its size `B` and stays in
front, the `k` axes after it all have size 1, deleting them gives back the input
shape, no axis is removed, and the product of the shape entries is unchanged. -/
theorem maybePadToLogicalRank_only_inserts (B : Nat) (rest : List Nat)
    (logical_rank : Int) :
    ∃ k y, maybePadToLogicalRank ⟨B :: rest⟩ (some 0) logical_rank = .ok y ∧
      y.sizes.length = (B :: rest).length + k ∧
      y.sizes.take 1 = [B] ∧
      (y.sizes.drop 1).take k = List.replicate k 1 ∧
      y.sizes.take 1 ++ y.sizes.drop (1 + k) = B :: rest ∧
      y.numel = (Tensor.mk (B :: rest)).numel := by
  by_cases h : (rest.length : Int) < logical_rank
  · refine ⟨(logical_rank - rest.length).toNat, _, maybePad_ok B rest 0 logical_rank h,
      ?_, ?_, ?_, ?_, ?_⟩
    · simp only [List.length_cons, List.length_append, List.length_replicate]
      omega
    · simp
    · simp
    · show List.take 1 (B :: (List.replicate _ 1 ++ rest)) ++
        List.drop (1 + _) (B :: (List.replicate _ 1 ++ rest)) = B :: rest
      rw [drop_inserted]
      rfl
    · simp only [Tensor.numel, shapeProd, Tensor.sizesInt, List.map_cons, List.map_append,
        List.map_replicate, List.prod_cons]
      rw [show Int.ofNat 1 = 1 from rfl, prod_replicate_one_append]
  · have hrank : rankWithoutBatchDim ⟨B :: rest⟩ (some 0) = (rest.length : Int) := by
      simp [rankWithoutBatchDim, Tensor.dim]
    have hge : (rest.length : Int) ≥ logical_rank := by omega
    refine ⟨0, ⟨B :: rest⟩, ?_, ?_, ?_, ?_, ?_, rfl⟩
    · simp only [maybePadToLogicalRank, Option.isNone_some, Bool.false_eq_true, if_false,
        hrank, hge, if_true]
    · simp
    · simp
    · simp
    · simp

/-- C10 as stated fails when the batch axis is not axis 0: on shape `[4,5]` with batch
index 1 and target rank 3 the result is `[4,1,1,5]`; the two inserted axes stand before
the batch axis (size 5), so the result is not the input with axes of size 1 inserted
after its batch axis. -/
theorem maybePadToLogicalRank_batch_axis_not_front :
    maybePadToLogicalRank ⟨[4, 5]⟩ (some 1) 3 = .ok ⟨[4, 1, 1, 5]⟩ ∧
    ¬ ∃ k : Nat, ([4, 1, 1, 5] : List Nat) =
      List.take (1 + 1) [4, 5] ++ List.replicate k 1 ++ List.drop (1 + 1) [4, 5] := by
  refine ⟨by decide, ?_⟩
  rintro ⟨k, hk⟩
  simp at hk

/-! ## Auxiliary facts on the batch axis -/

/-- Moving an accepted axis `b` (wrapped to `s`) to the front. -/
theorem movedim_front (x : Tensor) (b s : Int) (hs : maybe_wrap_dim b x.dim = .ok s) :
    x.movedim b 0 = .ok ⟨x.sizes.getD s.toNat 0 :: x.sizes.eraseIdx s.toNat⟩ := by
  obtain ⟨hs0, hs1⟩ := maybe_wrap_dim_range hs
  have h0 : maybe_wrap_dim 0 x.dim = .ok 0 := maybe_wrap_dim_of_range le_rfl (by omega)
  simp only [Tensor.movedim, hs, h0, bind, Except.bind]
  rfl

theorem sizesInt_front (x : Tensor) (s : Nat) :
    (Tensor.mk (x.sizes.getD s 0 :: x.sizes.eraseIdx s)).sizesInt =
      x.sizesInt.getD s 0 :: x.sizesInt.eraseIdx s := by
  have e2 : Int.ofNat (x.sizes.getD s 0) = (List.map Int.ofNat x.sizes).getD s 0 :=
    (List.getD_map x.sizes 0 Int.ofNat).symm
  simp only [Tensor.sizesInt, List.map_cons, List.eraseIdx_eq_take_drop_succ,
    List.map_append, List.map_take, List.map_drop, e2]

/-- The tensor returned by `moveBatchDimToFront` for an accepted batch index. -/
theorem moveBatchDimToFront_ok (x : Tensor) (b s : Int)
    (hs : maybe_wrap_dim b x.dim = .ok s) :
    ∃ m, moveBatchDimToFront x (some b) = .ok m ∧
      m.sizesInt = x.sizesInt.getD s.toNat 0 :: x.sizesInt.eraseIdx s.toNat ∧
      m.dim = x.dim ∧ m.numel = x.numel := by
  obtain ⟨hs0, hs1⟩ := maybe_wrap_dim_range hs
  have hdim := dim_eq_length x
  have hsn : s.toNat < x.sizesInt.length := by omega
  have hlenE : (x.sizesInt.eraseIdx s.toNat).length = x.sizesInt.length - 1 := by
    rw [List.length_eraseIdx, if_pos hsn]
  have hshape : ∀ m : Tensor,
      m.sizesInt = x.sizesInt.getD s.toNat 0 :: x.sizesInt.eraseIdx s.toNat →
      m.dim = x.dim ∧ m.numel = x.numel := by
    intro m hm
    constructor
    · rw [dim_eq_length m, hm, List.length_cons, hlenE, hdim]
      omega
    · unfold Tensor.numel shapeProd
      rw [hm, List.prod_cons, prod_split_at x.sizesInt s.toNat hsn]
  by_cases hb : b = 0
  · subst hb
    have hs' : s = 0 := by
      obtain ⟨-, -, h⟩ := (maybe_wrap_dim_ok_iff 0 x.dim s).1 hs
      simpa using h
    subst hs'
    have hm : x.sizesInt = x.sizesInt.getD (0 : Int).toNat 0 ::
        x.sizesInt.eraseIdx (0 : Int).toNat := by
      cases hx : x.sizesInt with
      | nil => rw [hx] at hsn; simp at hsn
      | cons a l => simp
    exact ⟨x, by simp [moveBatchDimToFront], hm, (hshape x hm).1, (hshape x hm).2⟩
  · refine ⟨_, ?_, sizesInt_front x s.toNat, hshape _ (sizesInt_front x s.toNat)⟩
    simp only [moveBatchDimToFront, hb, if_false]
    exact movedim_front x b s hs

theorem numelWithoutBatchDim_some (x : Tensor) (b s : Int)
    (hs : maybe_wrap_dim b x.dim = .ok s) :
    numelWithoutBatchDim x (some b) =
      if x.sizesInt.getD s.toNat 0 = 0 then .error .undefinedBehaviour
      else .ok (x.numel.tdiv (x.sizesInt.getD s.toNat 0)) := by
  simp only [numelWithoutBatchDim, size_ok x b s hs, bind, Except.bind]


/-! ## The claims on the batch axis, the option helper and the error helper -/

/-- C11. For every tensor `T` and optional batch index `b`, `moveBatchDimToFront`
returns `T` itself when `b` is absent or equals 0; for every other `b` that is a valid
axis of `T` (accepted by the dimension-wrap utility, wrapped to `s`) the result has
shape `T.size(b)` followed by the remaining sizes of `T` in their original order, and
so has the rank and the element count of `T`. -/
theorem moveBatchDimToFront_result (T : Tensor) :
    moveBatchDimToFront T none = .ok T ∧
    moveBatchDimToFront T (some 0) = .ok T ∧
    ∀ b s : Int, b ≠ 0 → maybe_wrap_dim b T.dim = .ok s →
      ∃ M v, moveBatchDimToFront T (some b) = .ok M ∧ T.size b = .ok v ∧
        M.sizesInt = v :: T.sizesInt.eraseIdx s.toNat ∧
        M.dim = T.dim ∧ M.numel = T.numel := by
  refine ⟨rfl, by simp [moveBatchDimToFront], ?_⟩
  intro b s _ hs
  obtain ⟨M, hM, hMs, hMd, hMn⟩ := moveBatchDimToFront_ok T b s hs
  exact ⟨M, _, hM, size_ok T b s hs, hMs, hMd, hMn⟩

/-- Witness of C11: shape `[2,3,4]` with batch index 2 gives `[4,2,3]`. -/
theorem moveBatchDimToFront_result_witness :
    (2 : Int) ≠ 0 ∧ maybe_wrap_dim 2 (Tensor.mk [2, 3, 4]).dim = .ok 2 ∧
    moveBatchDimToFront ⟨[2, 3, 4]⟩ (some 2) = .ok ⟨[4, 2, 3]⟩ ∧
    ∃ M v, moveBatchDimToFront ⟨[2, 3, 4]⟩ (some 2) = .ok M ∧
      (Tensor.mk [2, 3, 4]).size 2 = .ok v ∧
      M.sizesInt = v :: (Tensor.mk [2, 3, 4]).sizesInt.eraseIdx (2 : Int).toNat ∧
      M.dim = (Tensor.mk [2, 3, 4]).dim ∧ M.numel = (Tensor.mk [2, 3, 4]).numel :=
  ⟨by decide, by decide, by decide,
    (moveBatchDimToFront_result ⟨[2, 3, 4]⟩).2.2 2 2 (by decide) (by decide)⟩

/-- C12 (amended). For every tensor and every present batch index `b` that is a valid
axis of the tensor (wrapped to `s`) and whose axis is not empty (`tensor.size(b) != 0`),
`numelWithoutBatchDim` returns the product of the sizes of all axes other than `b`, the
division by `tensor.size(b)` being exact; when `b` is absent it returns the product of
all sizes. -/
theorem numelWithoutBatchDim_removes_batch_axis (tensor : Tensor) (b s : Int)
    (hs : maybe_wrap_dim b tensor.dim = .ok s)
    (hne : tensor.sizesInt.getD s.toNat 0 ≠ 0) :
    numelWithoutBatchDim tensor (some b) =
      .ok (shapeProd (tensor.sizesInt.eraseIdx s.toNat)) ∧
    tensor.numel =
      tensor.sizesInt.getD s.toNat 0 * shapeProd (tensor.sizesInt.eraseIdx s.toNat) ∧
    numelWithoutBatchDim tensor none = .ok (shapeProd tensor.sizesInt) := by
  obtain ⟨hs0, hs1⟩ := maybe_wrap_dim_range hs
  have hdim := dim_eq_length tensor
  have hsn : s.toNat < tensor.sizesInt.length := by omega
  have hnum : tensor.numel =
      tensor.sizesInt.getD s.toNat 0 * shapeProd (tensor.sizesInt.eraseIdx s.toNat) :=
    prod_split_at tensor.sizesInt s.toNat hsn
  refine ⟨?_, hnum, rfl⟩
  rw [numelWithoutBatchDim_some tensor b s hs, if_neg hne, hnum,
    Int.mul_tdiv_cancel_left _ hne]

/-- Witness of the amended C12: shape `[2,3,4]` with batch index 1 gives `2 * 4 = 8`. -/
theorem numelWithoutBatchDim_removes_batch_axis_witness :
    maybe_wrap_dim 1 (Tensor.mk [2, 3, 4]).dim = .ok 1 ∧
    (Tensor.mk [2, 3, 4]).sizesInt.getD (1 : Int).toNat 0 ≠ 0 ∧
    numelWithoutBatchDim ⟨[2, 3, 4]⟩ (some 1) = .ok 8 ∧
    (numelWithoutBatchDim ⟨[2, 3, 4]⟩ (some 1) =
      .ok (shapeProd ((Tensor.mk [2, 3, 4]).sizesInt.eraseIdx (1 : Int).toNat)) ∧
    (Tensor.mk [2, 3, 4]).numel =
      (Tensor.mk [2, 3, 4]).sizesInt.getD (1 : Int).toNat 0 *
        shapeProd ((Tensor.mk [2, 3, 4]).sizesInt.eraseIdx (1 : Int).toNat) ∧
    numelWithoutBatchDim ⟨[2, 3, 4]⟩ none = .ok (shapeProd (Tensor.mk [2, 3, 4]).sizesInt)) :=
  ⟨by decide, by decide, by decide,
    numelWithoutBatchDim_removes_batch_axis ⟨[2, 3, 4]⟩ 1 1 (by decide) (by decide)⟩

/-- C12 as stated fails on an empty batch axis: on shape `[0,3]` with batch index 0,
a valid axis, the other axes have product 3, but the code computes
`numel / size(0) = 0 / 0`, an integer division by zero, and returns no value. -/
theorem numelWithoutBatchDim_empty_batch_axis :
    maybe_wrap_dim 0 (Tensor.mk [0, 3]).dim = .ok 0 ∧
    shapeProd ((Tensor.mk [0, 3]).sizesInt.eraseIdx 0) = 3 ∧
    numelWithoutBatchDim ⟨[0, 3]⟩ (some 0) = .error .undefinedBehaviour ∧
    numelWithoutBatchDim ⟨[0, 3]⟩ (some 0) ≠ .ok 3 := by
  decide

/-- C13. For every tensor `T` and optional batch index `b`, `numelWithoutBatchDim`
returns `T.numel / T.size(b)` (integer division) when `b` is present and `T.numel` when
`b` is absent.  Where `T.size(b)` cannot be evaluated the call fails in the same way,
and where it is 0 the quotient is the undefined division `T.numel / 0`. -/
theorem numelWithoutBatchDim_formula (T : Tensor) :
    numelWithoutBatchDim T none = .ok T.numel ∧
    (∀ b sz : Int, T.size b = .ok sz → sz ≠ 0 →
      numelWithoutBatchDim T (some b) = .ok (T.numel.tdiv sz) ∧
        T.numel.tdiv sz = T.numel / sz) ∧
    (∀ b : Int, T.size b = .ok 0 →
      numelWithoutBatchDim T (some b) = .error .undefinedBehaviour) ∧
    (∀ (b : Int) (e : Err), T.size b = .error e →
      numelWithoutBatchDim T (some b) = .error e) := by
  refine ⟨rfl, ?_, ?_, ?_⟩
  · intro b sz hsz hne
    refine ⟨by simp only [numelWithoutBatchDim, hsz, bind, Except.bind, hne, if_false], ?_⟩
    have hnum : 0 ≤ T.numel := List.prod_nonneg (sizesInt_nonneg T)
    have hsz0 : 0 ≤ sz := by
      cases hw : maybe_wrap_dim b T.dim with
      | error e => simp [Tensor.size, hw, bind, Except.bind] at hsz
      | ok s =>
        obtain ⟨hs0, hs1⟩ := maybe_wrap_dim_range hw
        have hdim := dim_eq_length T
        rw [size_ok T b s hw] at hsz
        cases hsz
        rw [List.getD_eq_getElem _ 0 (by omega)]
        exact sizesInt_nonneg T _ (List.getElem_mem _)
    exact Int.tdiv_eq_ediv hnum hsz0
  · intro b hsz
    simp only [numelWithoutBatchDim, hsz, bind, Except.bind, if_true]
  · intro b e hsz
    simp only [numelWithoutBatchDim, hsz, bind, Except.bind]

/-- Witness of C13: shape `[2,3,4]` with batch index 0 gives `24 / 2 = 12`. -/
theorem numelWithoutBatchDim_formula_witness :
    (Tensor.mk [2, 3, 4]).size 0 = .ok 2 ∧ (2 : Int) ≠ 0 ∧
    numelWithoutBatchDim ⟨[2, 3, 4]⟩ (some 0) = .ok 12 ∧
    (numelWithoutBatchDim ⟨[2, 3, 4]⟩ (some 0) = .ok ((Tensor.mk [2, 3, 4]).numel.tdiv 2) ∧
      (Tensor.mk [2, 3, 4]).numel.tdiv 2 = (Tensor.mk [2, 3, 4]).numel / 2) :=
  ⟨by decide, by decide, by decide,
    (numelWithoutBatchDim_formula ⟨[2, 3, 4]⟩).2.1 0 2 (by decide) (by decide)⟩

/-- C14. For every tensor `T` and optional batch index `b`, whatever its value,
`rankWithoutBatchDim` returns `T.rank - 1` when `b` is present and `T.rank` when `b` is
absent. -/
theorem rankWithoutBatchDim_formula (T : Tensor) (b : Int) :
    rankWithoutBatchDim T (some b) = T.dim - 1 ∧ rankWithoutBatchDim T none = T.dim :=
  ⟨rfl, rfl⟩

/-- C15. `valIfNonempty` preserves presence and replaces the payload: for all integers
`x` and `y`, `valIfNonempty(absent, x)` is absent and `valIfNonempty(present(y), x)` is
`present(x)`; the result does not depend on `y`. -/
theorem valIfNonempty_spec (x y : Int) :
    valIfNonempty none x = none ∧ valIfNonempty (some y) x = some x ∧
    ∀ z : Int, valIfNonempty (some y) x = valIfNonempty (some z) x :=
  ⟨rfl, rfl, fun _ => rfl⟩


/-- C16. `vmapIncompatibleInplaceError` never returns normally: for every operation
name the call raises a failure, and the message is a fixed text into which the name is
copied verbatim twice, once in the description of the failing call (right after
`vmap: `) and once in the advice to use out-of-place operators; in particular the name
is a contiguous part of the message. -/
theorem vmapIncompatibleInplaceError_raises :
    ∃ mid post : String, ∀ schema_name : String,
      (∀ u : Unit, vmapIncompatibleInplaceError schema_name ≠ .ok u) ∧
      vmapIncompatibleInplaceError schema_name =
        .error (.checkFailed ("vmap: " ++ schema_name ++ mid ++
          "Please try to use out-of-place operators instead of " ++ schema_name ++ post)) ∧
      schema_name.data <:+: (vmapIncompatibleInplaceMessage schema_name).data := by
  refine ⟨"(self, *extra_args) is not possible because " ++
      "there exists a Tensor `other` in extra_args that has more elements " ++
      "than `self`. This happened due to `other` being vmapped over but " ++
      "`self` not being vmapped over in a vmap. ",
    ". " ++ "If said operator is being called inside the PyTorch framework, " ++
      "please file a bug report instead.", ?_⟩
  intro schema_name
  refine ⟨?_, ?_, ?_⟩
  · intro u h
    cases h
  · simp only [vmapIncompatibleInplaceError, vmapIncompatibleInplaceMessage,
      String.append_assoc]
  · simp only [vmapIncompatibleInplaceMessage, String.data_append, List.append_assoc]
    exact ⟨"vmap: ".data, _, rfl⟩

/-- Witness of C16: the name `add_`. -/
theorem vmapIncompatibleInplaceError_raises_witness :
    (∀ u : Unit, vmapIncompatibleInplaceError "add_" ≠ .ok u) ∧
    "add_".data <:+: (vmapIncompatibleInplaceMessage "add_").data :=
  match vmapIncompatibleInplaceError_raises with
  | ⟨_, _, h⟩ => ⟨(h "add_").1, (h "add_").2.2⟩

/-- C17. For every tensor of rank `r` and every `logical_dim` on which `getPhysicalDim`
returns normally, the wrapped index `w` lies in `[0, unbatchedRank)` and the result `p`
satisfies `0 <= p < r` when `has_batch_dim` is false and `1 <= p < r` when it is true:
it is an existing axis of the tensor and never the batch axis 0.  When the unbatched
rank is 0 or less the call does not return normally. -/
theorem getPhysicalDim_valid_axis (tensor : Tensor) (has_batch_dim : Bool)
    (logical_dim p : Int)
    (h : getPhysicalDim tensor has_batch_dim logical_dim = .ok p) :
    (∃ w, maybe_wrap_dim logical_dim (rankWithoutBatchDim tensor
        (if has_batch_dim then some 0 else none)) = .ok w ∧
      0 ≤ w ∧ w < rankWithoutBatchDim tensor (if has_batch_dim then some 0 else none) ∧
      p = if has_batch_dim then w + 1 else w) ∧
    (has_batch_dim = false → 0 ≤ p ∧ p < tensor.dim) ∧
    (has_batch_dim = true → 1 ≤ p ∧ p < tensor.dim) ∧
    0 < rankWithoutBatchDim tensor (if has_batch_dim then some 0 else none) := by
  rw [getPhysicalDim_eq] at h
  cases hw : maybe_wrap_dim logical_dim (if has_batch_dim then tensor.dim - 1 else tensor.dim) with
  | error e => simp [hw, bind, Except.bind] at h
  | ok w =>
    obtain ⟨hw0, hw1⟩ := maybe_wrap_dim_range hw
    simp only [hw, bind, Except.bind, Except.ok.injEq] at h
    cases has_batch_dim with
    | false =>
      simp only [Bool.false_eq_true, if_false] at h hw hw1
      subst h
      have hr : rankWithoutBatchDim tensor (if false = true then some 0 else none) =
          tensor.dim := rfl
      rw [hr]
      refine ⟨⟨w, hw, hw0, hw1, rfl⟩, fun _ => ⟨hw0, hw1⟩, ?_, by omega⟩
      intro hb
      cases hb
    | true =>
      simp only [if_true] at h hw hw1
      subst h
      have hr : rankWithoutBatchDim tensor (if true = true then some 0 else none) =
          tensor.dim - 1 := rfl
      rw [hr]
      refine ⟨⟨w, hw, hw0, hw1, rfl⟩, ?_, fun _ => ⟨by omega, by omega⟩, by omega⟩
      intro hb
      cases hb

/-- Witness of C17: rank 4 with a batch axis, `logical_dim = -1` gives axis 3. -/
theorem getPhysicalDim_valid_axis_witness :
    getPhysicalDim ⟨[5, 2, 3, 4]⟩ true (-1) = .ok 3 ∧
    ((true = false → (0 : Int) ≤ 3 ∧ (3 : Int) < (Tensor.mk [5, 2, 3, 4]).dim) ∧
      (true = true → (1 : Int) ≤ 3 ∧ (3 : Int) < (Tensor.mk [5, 2, 3, 4]).dim) ∧
      0 < rankWithoutBatchDim ⟨[5, 2, 3, 4]⟩ (if true then some 0 else none)) :=
  ⟨by decide, (getPhysicalDim_valid_axis ⟨[5, 2, 3, 4]⟩ true (-1) 3 (by decide)).2⟩

/-- C18. `reshape_dim_into` never indexes out of bounds: for every tensor `x` of rank
`n` and all `src`, `dst` for which both dimension-wrap calls succeed, the erase at the
wrapped `src` is within the `n`-entry shape and the write `new_shape[dst]` is within
the `(n - 1)`-entry shape left after the erase.  For all arguments the call does not
run into undefined behaviour; when `n = 1` no `dst` is accepted and the write is not
reached. -/
theorem reshape_dim_into_in_bounds (x : Tensor) (src dst : Int) :
    (∀ s d : Int, maybe_wrap_dim src x.dim = .ok s →
      maybe_wrap_dim dst (x.dim - 1) = .ok d →
      (0 ≤ s ∧ s < (x.sizesInt.length : Int)) ∧
      vecErase x.sizesInt s = .ok (x.sizesInt.eraseIdx s.toNat) ∧
      ((x.sizesInt.eraseIdx s.toNat).length : Int) = x.dim - 1 ∧
      (0 ≤ d ∧ d < ((x.sizesInt.eraseIdx s.toNat).length : Int)) ∧
      ∃ r, reshape_dim_into_new_shape src dst x = .ok r) ∧
    reshape_dim_into_new_shape src dst x ≠ .error .undefinedBehaviour ∧
    reshape_dim_into src dst x ≠ .error .undefinedBehaviour ∧
    (x.dim = 1 → reshape_dim_into src dst x = .error .indexError) := by
  have hdim := dim_eq_length x
  have herr : ∀ e, maybe_wrap_dim src x.dim = .error e ∨
      maybe_wrap_dim dst (x.dim - 1) = .error e → e = .indexError := by
    intro e he
    rcases he with he | he <;>
    · unfold maybe_wrap_dim at he
      split_ifs at he
      cases he
      rfl
  refine ⟨?_, ?_, ?_, ?_⟩
  · intro s d hs hd
    obtain ⟨hs0, hs1⟩ := maybe_wrap_dim_range hs
    obtain ⟨hd0, hd1⟩ := maybe_wrap_dim_range hd
    have hsl : s < (x.sizesInt.length : Int) := by omega
    have hel : ((x.sizesInt.eraseIdx s.toNat).length : Int) = x.dim - 1 := by
      rw [List.length_eraseIdx, if_pos (by omega)]
      omega
    refine ⟨⟨hs0, hsl⟩, ?_, hel, ⟨hd0, by omega⟩, _, into_new_shape_ok x src dst s d hs hd⟩
    simp only [vecErase, hs0, hsl, and_self, if_true]
  · cases hs : maybe_wrap_dim src x.dim with
    | error e =>
      have := herr e (Or.inl hs)
      subst this
      simp [reshape_dim_into_new_shape, hs, bind, Except.bind]
    | ok s =>
      cases hd : maybe_wrap_dim dst (x.dim - 1) with
      | error e =>
        have := herr e (Or.inr hd)
        subst this
        simp [reshape_dim_into_new_shape, hs, hd, bind, Except.bind]
      | ok d =>
        rw [into_new_shape_ok x src dst s d hs hd]
        simp
  · cases hs : maybe_wrap_dim src x.dim with
    | error e =>
      have := herr e (Or.inl hs)
      subst this
      simp [reshape_dim_into, reshape_dim_into_new_shape, hs, bind, Except.bind]
    | ok s =>
      cases hd : maybe_wrap_dim dst (x.dim - 1) with
      | error e =>
        have := herr e (Or.inr hd)
        subst this
        simp [reshape_dim_into, reshape_dim_into_new_shape, hs, hd, bind, Except.bind]
      | ok d =>
        obtain ⟨hs0, hs1⟩ := maybe_wrap_dim_range hs
        obtain ⟨hd0, hd1⟩ := maybe_wrap_dim_range hd
        obtain ⟨m, hm, -, -⟩ := movedim_ok x s d hs0 hs1 hd0 (by omega)
        simp only [reshape_dim_into, into_new_shape_ok x src dst s d hs hd, hm, bind,
          Except.bind]
        exact reshape_ne_undefinedBehaviour _ _
  · intro h1
    have hd : maybe_wrap_dim dst (x.dim - 1) = .error .indexError := by
      unfold maybe_wrap_dim
      rw [if_neg (by omega)]
    cases hs : maybe_wrap_dim src x.dim with
    | error e =>
      have := herr e (Or.inl hs)
      subst this
      simp [reshape_dim_into, reshape_dim_into_new_shape, hs, bind, Except.bind]
    | ok s =>
      simp [reshape_dim_into, reshape_dim_into_new_shape, hs, hd, bind, Except.bind]

/-- Witness of C18: shape `[2,3,4]`, `src = 0`, `dst = 1`. -/
theorem reshape_dim_into_in_bounds_witness :
    maybe_wrap_dim 0 (Tensor.mk [2, 3, 4]).dim = .ok 0 ∧
    maybe_wrap_dim 1 ((Tensor.mk [2, 3, 4]).dim - 1) = .ok 1 ∧
    ((0 ≤ (0 : Int) ∧ (0 : Int) < ((Tensor.mk [2, 3, 4]).sizesInt.length : Int)) ∧
      vecErase (Tensor.mk [2, 3, 4]).sizesInt 0 =
        .ok ((Tensor.mk [2, 3, 4]).sizesInt.eraseIdx (0 : Int).toNat) ∧
      (((Tensor.mk [2, 3, 4]).sizesInt.eraseIdx (0 : Int).toNat).length : Int) =
        (Tensor.mk [2, 3, 4]).dim - 1 ∧
      (0 ≤ (1 : Int) ∧
        (1 : Int) < (((Tensor.mk [2, 3, 4]).sizesInt.eraseIdx (0 : Int).toNat).length : Int)) ∧
      ∃ r, reshape_dim_into_new_shape 0 1 ⟨[2, 3, 4]⟩ = .ok r) :=
  ⟨by decide, by decide,
    (reshape_dim_into_in_bounds ⟨[2, 3, 4]⟩ 0 1).1 0 1 (by decide) (by decide)⟩

/-- C19. Moving the batch axis to the front does not change the logical view: for
every tensor `T` and every present batch index `b` that is a valid axis of `T`, with
`M = moveBatchDimToFront(T, b)`: `M.size(0) == T.size(b)`, the two
`rankWithoutBatchDim` agree, the two `numelWithoutBatchDim` calls agree (both return
the same value, or both divide by the size 0 of an empty batch axis), and
`moveBatchDimToFront(M, 0)` is `M`. -/
theorem moveBatchDimToFront_keeps_logical_view (T : Tensor) (b s : Int)
    (hs : maybe_wrap_dim b T.dim = .ok s) :
    ∃ M, moveBatchDimToFront T (some b) = .ok M ∧
      (∃ v, M.size 0 = .ok v ∧ T.size b = .ok v) ∧
      rankWithoutBatchDim M (some 0) = rankWithoutBatchDim T (some b) ∧
      numelWithoutBatchDim M (some 0) = numelWithoutBatchDim T (some b) ∧
      (T.sizesInt.getD s.toNat 0 ≠ 0 →
        ∃ n, numelWithoutBatchDim M (some 0) = .ok n ∧
          numelWithoutBatchDim T (some b) = .ok n) ∧
      moveBatchDimToFront M (some 0) = .ok M := by
  obtain ⟨hs0, hs1⟩ := maybe_wrap_dim_range hs
  obtain ⟨M, hM, hMs, hMd, hMn⟩ := moveBatchDimToFront_ok T b s hs
  have h0 : maybe_wrap_dim 0 M.dim = .ok 0 :=
    maybe_wrap_dim_of_range le_rfl (by rw [hMd]; omega)
  have hsz : M.size 0 = .ok (T.sizesInt.getD s.toNat 0) := by
    rw [size_ok M 0 0 h0, hMs]
    rfl
  have hnum : numelWithoutBatchDim M (some 0) = numelWithoutBatchDim T (some b) := by
    rw [numelWithoutBatchDim_some M 0 0 h0, numelWithoutBatchDim_some T b s hs, hMs, hMn]
    rfl
  refine ⟨M, hM, ⟨_, hsz, size_ok T b s hs⟩, ?_, hnum, ?_, by simp [moveBatchDimToFront]⟩
  · simp only [rankWithoutBatchDim, Option.isSome_some, if_true, hMd]
  · intro hne
    refine ⟨T.numel.tdiv (T.sizesInt.getD s.toNat 0), ?_, ?_⟩
    · rw [hnum, numelWithoutBatchDim_some T b s hs, if_neg hne]
    · rw [numelWithoutBatchDim_some T b s hs, if_neg hne]

/-- Witness of C19: shape `[2,3,4]` with batch index 2. -/
theorem moveBatchDimToFront_keeps_logical_view_witness :
    maybe_wrap_dim 2 (Tensor.mk [2, 3, 4]).dim = .ok 2 ∧
    moveBatchDimToFront ⟨[2, 3, 4]⟩ (some 2) = .ok ⟨[4, 2, 3]⟩ ∧
    numelWithoutBatchDim ⟨[4, 2, 3]⟩ (some 0) = .ok 6 ∧
    ∃ M, moveBatchDimToFront ⟨[2, 3, 4]⟩ (some 2) = .ok M ∧
      (∃ v, M.size 0 = .ok v ∧ (Tensor.mk [2, 3, 4]).size 2 = .ok v) ∧
      rankWithoutBatchDim M (some 0) = rankWithoutBatchDim ⟨[2, 3, 4]⟩ (some 2) ∧
      numelWithoutBatchDim M (some 0) = numelWithoutBatchDim ⟨[2, 3, 4]⟩ (some 2) ∧
      ((Tensor.mk [2, 3, 4]).sizesInt.getD (2 : Int).toNat 0 ≠ 0 →
        ∃ n, numelWithoutBatchDim M (some 0) = .ok n ∧
          numelWithoutBatchDim ⟨[2, 3, 4]⟩ (some 2) = .ok n) ∧
      moveBatchDimToFront M (some 0) = .ok M :=
  ⟨by decide, by decide, by decide,
    moveBatchDimToFront_keeps_logical_view ⟨[2, 3, 4]⟩ 2 2 (by decide)⟩

end Functorch
